import Mathlib

/-!
Verification of the rust-irclib IRC client library.

Byte strings are modelled as `List Nat` (each element an octet value).
Relevant byte values: space = 32, colon = 58, bang = 33, at = 64,
underscore = 95, CR = 13, LF = 10, the CTCP delimiter 0x01 = 1,
the digit zero = 48.

The Rust code is embedded shallowly:
* `User` (src/lib.rs) with its scan-based `User.parse`, `User.new`,
  `User.with_nick` and the slice accessors;
* `Command` / `Line` (src/conn.rs) with `Line.parse` and `Line.to_raw`.
  `Line.parse` returns `Except Unit (Option Line)`: `.ok none` models the
  Rust `None` return, `.error ()` models a task failure (panic) raised
  while parsing;
* the wire rendering of `Conn::send_command` / `Conn::send_raw`
  (`send_frame` / `sendRawFrame`), including the 510-byte buffer
  truncation performed by `copy_from`;
* the connection state `Conn` (`logged_in` flag, current `User`) with the
  built-in handlers of src/handlers.rs and the inbound event loop of
  `Conn::run` (`runLines`).  Outbound traffic is recorded as a list of
  `SendReq` values, each standing for the frame
  `send_frame req.cmd req.args req.add_colon` that the real
  `Conn::send_command` renders and enqueues at that point.

Loops that are not structurally recursive in the Rust source
(the argument-splitting loop of `Line::parse` and the decimal rendering
of `uint::to_str_bytes`) are embedded with an explicit fuel parameter
plus a fuel-irrelevance lemma, so that every definition reduces in the
kernel.
-/

instance {ε α : Type} [DecidableEq ε] [DecidableEq α] : DecidableEq (Except ε α)
  | .error e, .error f =>
    if h : e = f then isTrue (by rw [h])
    else isFalse (by intro c; injection c; contradiction)
  | .error _, .ok _ => isFalse (by intro h; exact Except.noConfusion h)
  | .ok _, .error _ => isFalse (by intro h; exact Except.noConfusion h)
  | .ok a, .ok b =>
    if h : a = b then isTrue (by rw [h])
    else isFalse (by intro c; injection c; contradiction)

/-- Byte string of the command name PRIVMSG. -/
def PRIVMSG_ : List Nat := [80, 82, 73, 86, 77, 83, 71]

/-- Byte string of the command name NOTICE. -/
def NOTICE_ : List Nat := [78, 79, 84, 73, 67, 69]

/-- Byte string of the CTCP verb ACTION. -/
def ACTION_ : List Nat := [65, 67, 84, 73, 79, 78]

/-- Byte string of the command name PING. -/
def PING_ : List Nat := [80, 73, 78, 71]

/-- Byte string of the command name PONG. -/
def PONG_ : List Nat := [80, 79, 78, 71]

/-- Byte string of the command name NICK. -/
def NICK_ : List Nat := [78, 73, 67, 75]

/-- Byte string of the command name QUIT. -/
def QUIT_ : List Nat := [81, 85, 73, 84]

/-- Index of the first occurrence of byte `t`, as in `position_elem`. -/
def posElem (t : Nat) : List Nat → Option Nat
  | [] => none
  | b :: rest => if b = t then some 0 else (posElem t rest).map (fun i => i + 1)

/-- Decimal digit test on a byte (ASCII 48..57). -/
def isDigitB (b : Nat) : Bool := 48 ≤ b && b ≤ 57

/-- ASCII alphabetic test on a byte: the Rust check
`b < 0x80 && char::is_alphabetic(b as char)` restricted to one byte. -/
def isAsciiAlphaB (b : Nat) : Bool :=
  b < 128 && ((65 ≤ b && b ≤ 90) || (97 ≤ b && b ≤ 122))

/-- Value of a decimal digit string, as computed by `uint::parse_bytes`
on an all-digit token. -/
def decVal (v : List Nat) : Nat := v.foldl (fun acc b => acc * 10 + (b - 48)) 0

/-- Fueled decimal rendering of a natural number
(`uint::to_str_bytes(n, 10)`), most significant digit first. -/
def natDecDigitsN : Nat → Nat → List Nat
  | 0, _ => []
  | f + 1, n => if n < 10 then [48 + n] else natDecDigitsN f (n / 10) ++ [48 + n % 10]

/-- Decimal ASCII rendering of `n` (`uint::to_str_bytes(n, 10)`). -/
def natDecDigits (n : Nat) : List Nat := natDecDigitsN (n + 1) n

/-- Numeric command rendering used by `Line::to_raw`: left-pad the decimal
digits with zeros to at least 3 characters. -/
def zeroPad3 (n : Nat) : List Nat :=
  List.replicate (3 - min (natDecDigits n).length 3) 48 ++ natDecDigits n

/-- Trailing line-terminator removal (`chomp` in src/conn.rs): strips one
trailing CR, or one trailing LF together with a CR right before it. -/
def chomp (s : List Nat) : List Nat :=
  match s.getLast? with
  | some 13 => s.dropLast
  | some 10 =>
    if s.length > 1 && (s.dropLast.getLast? == some 13)
    then s.dropLast.dropLast
    else s.dropLast
  | _ => s

/-- Representation of an IRC user (src/lib.rs): the raw byte string plus
the derived nick length and user/host spans. -/
structure User where
  raw : List Nat
  nicklen : Nat
  user : Option (Nat × Nat)
  host : Option (Nat × Nat)
deriving DecidableEq, Repr

/-- Scan loop of `User::parse`: walk the bytes with index `i`, record the
first bang (33) while none is recorded, stop at the first at (64). -/
def scanUser : List Nat → Nat → Option Nat → Option Nat × Option Nat
  | [], _, bang => (bang, none)
  | b :: rest, i, bang =>
    if bang = none ∧ b = 33 then scanUser rest (i + 1) (some i)
    else if b = 64 then (bang, some i)
    else scanUser rest (i + 1) bang

/-- Embedding of `User::parse`: one scan for the first bang and the first
at, then derive nick length and user/host spans. -/
def User.parse (v : List Nat) : User :=
  let s := scanUser v 0 none
  { raw := v
    nicklen :=
      match s.1, s.2 with
      | some i, _ => i
      | none, some j => j
      | none, none => v.length
    user := s.1.map (fun i => (i + 1, (s.2.getD v.length)))
    host := s.2.map (fun i => (i + 1, v.length)) }

/-- Nick accessor `User::nick`: the raw bytes before `nicklen`. -/
def User.nick (u : User) : List Nat := u.raw.take u.nicklen

/-- Username accessor `User::user`: the slice of the recorded span. -/
def User.userBytes (u : User) : Option (List Nat) :=
  u.user.map (fun p => (u.raw.take p.2).drop p.1)

/-- Hostname accessor `User::host`: the slice of the recorded span. -/
def User.hostBytes (u : User) : Option (List Nat) :=
  u.host.map (fun p => (u.raw.take p.2).drop p.1)

/-- Embedding of `User::new`: concatenate `nick[!user][@host]` and
re-parse the result. -/
def User.new (nick : List Nat) (user host : Option (List Nat)) : User :=
  User.parse (nick ++
    (match user with | none => [] | some u => 33 :: u) ++
    (match host with | none => [] | some h => 64 :: h))

/-- Embedding of `User::with_nick`: re-render with the new nick and the
receiver's user/host, then re-parse. -/
def User.with_nick (u : User) (nick : List Nat) : User :=
  User.new nick u.userBytes u.hostBytes

/-- IRC command variants (src/conn.rs).  For `IRCCTCP` and
`IRCCTCPReply` the first field is the CTCP verb and the second the
destination, as in the Rust declaration. -/
inductive Command where
  | IRCCmd : List Nat → Command
  | IRCCode : Nat → Command
  | IRCAction : List Nat → Command
  | IRCCTCP : List Nat → List Nat → Command
  | IRCCTCPReply : List Nat → List Nat → Command
deriving DecidableEq, Repr

open Command

/-- Embedding of `Command::is_ctcp`. -/
def Command.is_ctcp : Command → Bool
  | IRCAction _ => true
  | IRCCTCP _ _ => true
  | IRCCTCPReply _ _ => true
  | _ => false

/-- Parsed line (src/conn.rs): optional prefix, command, arguments.
The prefix field is named `pfx` because `prefix` is a Lean keyword. -/
structure Line where
  pfx : Option User
  command : Command
  args : List (List Nat)
deriving DecidableEq, Repr

/-- Prefix step of `Line::parse`: a line starting with a colon yields a
`User` from the text before the first space (failing without a space)
and the remainder after it; otherwise no prefix. -/
def parsePfx (v : List Nat) : Option (Option User × List Nat) :=
  match v with
  | 58 :: _ =>
    match posElem 32 v with
    | none => none
    | some idx => some (some (User.parse ((v.take idx).drop 1)), v.drop (idx + 1))
  | _ => some (none, v)

/-- Classification of the command token (src/conn.rs lines 587-594):
exactly 3 decimal digits gives a numeric command, an all-ASCII-alphabetic
token gives a named command together with the CTCP-check flag, anything
else is a parse failure. -/
def classifyCmd (cmd rest : List Nat) : Option (Command × Bool × List Nat) :=
  if cmd.length == 3 && cmd.all isDigitB then
    some (IRCCode (decVal cmd), false, rest)
  else if cmd.all isAsciiAlphaB then
    some (IRCCmd cmd, decide (cmd = PRIVMSG_) || decide (cmd = NOTICE_), rest)
  else none

/-- Command-token step of `Line::parse` (lines 574-595): split at the
first space (a space at position 0 is a failure, no space means the
token is the whole rest) and classify the token. -/
def parseCmdTok (v : List Nat) : Option (Command × Bool × List Nat) :=
  match posElem 32 v with
  | some 0 => none
  | none => classifyCmd v []
  | some idx => classifyCmd (v.take idx) (v.drop (idx + 1))

/-- Fueled embedding of the argument-splitting loop of `Line::parse`
(lines 596-611): a token starting with a colon takes the rest of the
line, otherwise split at each space.  Each iteration consumes at least
one byte, so fuel `v.length` always suffices. -/
def parseArgsN : Nat → List Nat → List (List Nat)
  | 0, _ => []
  | _ + 1, [] => []
  | n + 1, b :: rest =>
    if b = 58 then [rest]
    else
      match posElem 32 (b :: rest) with
      | none => [b :: rest]
      | some idx => (b :: rest).take idx :: parseArgsN n ((b :: rest).drop (idx + 1))

/-- Argument-splitting loop of `Line::parse` with adequate fuel. -/
def parseArgs (v : List Nat) : List (List Nat) := parseArgsN v.length v

/-- CTCP rewriting step of `Line::parse` (lines 612-643), entered when
the check flag is set and the last argument starts with byte 1.  Pops
the last argument, strips its 0x01 delimiters, reads the destination
from `args[0]` (a task failure, modelled as `.error ()`, when no
argument is left) and splits verb and text at the first space. -/
def ctcpStep (command : Command) (args0 : List (List Nat)) :
    Except Unit (Command × List (List Nat)) :=
  match args0.getLast? with
  | none => .error ()
  | some text0 =>
    let text :=
      if text0.length > 1 && (text0.getLast? == some 1)
      then (text0.drop 1).dropLast
      else text0.drop 1
    match args0.dropLast with
    | [] => .error ()
    | dst :: _ =>
      let pr :=
        match posElem 32 text with
        | some idx => (text.take idx, [text.drop (idx + 1)])
        | none => (text, ([] : List (List Nat)))
      match command with
      | IRCCmd c =>
        if c = PRIVMSG_ then
          if pr.1 = ACTION_ then .ok (IRCAction dst, pr.2)
          else .ok (IRCCTCP pr.1 dst, pr.2)
        else if c = NOTICE_ then .ok (IRCCTCPReply pr.1 dst, pr.2)
        else .error ()
      | _ => .error ()

/-- Body of `Line::parse` after the prefix has been removed: classify
the command token, split the arguments, and apply CTCP rewriting when
the named command is PRIVMSG or NOTICE and the last argument starts
with byte 1. -/
def parseRest (p : Option User) (v : List Nat) : Except Unit (Option Line) :=
  match parseCmdTok v with
  | none => .ok none
  | some (command, checkCTCP, rest) =>
    let args := parseArgs rest
    if checkCTCP && (match args.getLast? with
                     | none => false
                     | some a => a.head? == some 1) then
      match ctcpStep command args with
      | .error _ => .error ()
      | .ok (c2, a2) => .ok (some (Line.mk p c2 a2))
    else .ok (some (Line.mk p command args))

/-- Embedding of `Line::parse`.  `.ok none` is the Rust `None` result,
`.error ()` a task failure raised during parsing. -/
def Line.parse (v : List Nat) : Except Unit (Option Line) :=
  match parsePfx v with
  | none => .ok none
  | some (p, v1) => parseRest p v1

/-- Embedding of `Line::to_raw`: optional `:` prefix and space, the
command (numeric codes zero-padded to 3 digits, CTCP variants rendered
as a PRIVMSG/NOTICE with a 0x01-started trailing argument), then the
arguments (space-joined inside the 0x01 span for CTCP; otherwise
space-separated with the last argument colon-prefixed exactly when it
contains a space). -/
def Line.to_raw (l : Line) : List Nat :=
  (match l.pfx with
   | none => []
   | some u => 58 :: (u.raw ++ [32])) ++
  (match l.command with
   | IRCCmd cmd => cmd
   | IRCCode c => zeroPad3 c
   | IRCAction dst => PRIVMSG_ ++ [32] ++ dst ++ [32, 58, 1] ++ ACTION_
   | IRCCTCP cmd dst => PRIVMSG_ ++ [32] ++ dst ++ [32, 58, 1] ++ cmd
   | IRCCTCPReply cmd dst => NOTICE_ ++ [32] ++ dst ++ [32, 58, 1] ++ cmd) ++
  (if l.command.is_ctcp then (l.args.map (fun a => 32 :: a)).flatten ++ [1]
   else
     match l.args.getLast? with
     | none => []
     | some last =>
       ((l.args.dropLast).map (fun a => 32 :: a)).flatten ++ [32] ++
       (if last.contains 32 then [58] else []) ++ last)

/-- Pieces appended by `Conn::send_command` into its 512-byte buffer, in
order (src/conn.rs lines 380-421).  The `IRCCTCP`/`IRCCTCPReply` arms
write the first field as the destination slot, exactly as the Rust
pattern `IRCCTCP(ref dst, _)` does. -/
def sendPieces (cmd : Command) (args : List (List Nat)) (add_colon : Bool) :
    List (List Nat) :=
  (match cmd with
   | IRCCmd c => [c]
   | IRCCode n => [natDecDigits n]
   | IRCAction dst => [PRIVMSG_ ++ [32], dst, [32, 58, 1], ACTION_]
   | IRCCTCP a b => [PRIVMSG_ ++ [32], a, [32, 58, 1], b]
   | IRCCTCPReply a b => [NOTICE_ ++ [32], a, [32, 58, 1], b]) ++
  (match args.getLast? with
   | none => []
   | some last =>
     (args.dropLast.map (fun a => [[32], a])).flatten ++
     [if add_colon then [32, 58] else [32]] ++ [last]) ++
  (if cmd.is_ctcp then [[1]] else [])

/-- One `append` call of `Conn::send_command`: `copy_from` copies into
the remaining space of the 510-byte payload buffer, dropping whatever
does not fit. -/
def appendTrunc (buf : List Nat) (v : List Nat) : List Nat :=
  buf ++ v.take (510 - buf.length)

/-- Payload written by `Conn::send_command` before the terminator. -/
def sendPayload (cmd : Command) (args : List (List Nat)) (add_colon : Bool) :
    List Nat :=
  (sendPieces cmd args add_colon).foldl appendTrunc []

/-- Frame enqueued by `Conn::send_command`: the truncated payload
followed by CR LF. -/
def send_frame (cmd : Command) (args : List (List Nat)) (add_colon : Bool) :
    List Nat :=
  sendPayload cmd args add_colon ++ [13, 10]

/-- Frame enqueued by `Conn::send_raw`: chomp the input, enqueue nothing
if it is then empty, otherwise truncate to 510 bytes and append CR LF. -/
def sendRawFrame (raw : List Nat) : Option (List Nat) :=
  let r := chomp raw
  if r = [] then none else some (r.take 510 ++ [13, 10])

/-- One recorded `Conn::send_command` call.  The real method renders and
enqueues `send_frame cmd args add_colon` at this point. -/
structure SendReq where
  cmd : Command
  args : List (List Nat)
  add_colon : Bool
deriving DecidableEq, Repr

/-- Connection state relevant to the handlers: the login flag, the
current user, and the outbound queue of issued send requests. -/
structure Conn where
  logged_in : Bool
  user : User
  outbox : List SendReq
deriving DecidableEq, Repr

/-- Embedding of `Conn::send_command`: record the request (the rendered
frame is `send_frame cmd args add_colon`). -/
def Conn.send_command (conn : Conn) (cmd : Command) (args : List (List Nat))
    (add_colon : Bool) : Conn :=
  { conn with outbox := conn.outbox ++ [SendReq.mk cmd args add_colon] }

/-- Embedding of `Conn::set_nick`: send NICK, and adopt the new nick
locally (re-render and re-parse) only when not logged in. -/
def Conn.set_nick (conn : Conn) (nick : List Nat) : Conn :=
  let conn := conn.send_command (IRCCmd NICK_) [nick] false
  if conn.logged_in = false then { conn with user := conn.user.with_nick nick }
  else conn

/-- Embedding of `Conn::quit`: QUIT with no argument for an empty
message, otherwise QUIT with the message as colon-prefixed argument. -/
def Conn.quit (conn : Conn) (msg : List Nat) : Conn :=
  if msg = [] then conn.send_command (IRCCmd QUIT_) [] false
  else conn.send_command (IRCCmd QUIT_) [msg] true

/-- Underscore-mutation loop of `handlers::handshake::bad_nick`
(`nick.mut_rev_iter()`): replace the last byte that is not 95 with 95;
`none` when every byte is 95 (nothing was modified). -/
def mutRev : List Nat → Option (List Nat)
  | [] => none
  | b :: rest =>
    match mutRev rest with
    | some rest2 => some (b :: rest2)
    | none => if b ≠ 95 then some (95 :: rest) else none

/-- Embedding of `handshake::bad_nick`: mutate args[0] (or the current
nick) and send NICK with it, or quit with no message if the nick is all
underscores. -/
def bad_nick (conn : Conn) (l : Line) : Conn :=
  let nick := match l.args with | [] => conn.user.nick | a :: _ => a
  match mutRev nick with
  | some m => conn.set_nick m
  | none => conn.quit []

/-- Embedding of `handshake::RPL_WELCOME` (numeric 001): set the login
flag and adopt args[0] as nick when present. -/
def RPL_WELCOME (conn : Conn) (l : Line) : Conn :=
  let conn := { conn with logged_in := true }
  match l.args with
  | [] => conn
  | a :: _ => { conn with user := conn.user.with_nick a }

/-- Embedding of `handshake::ERR_NICKNAMEINUSE` (numeric 433): when
args[0] equals the current nick, request it with an underscore appended;
otherwise fall back to `bad_nick`. -/
def ERR_NICKNAMEINUSE (conn : Conn) (l : Line) : Conn :=
  match l.args with
  | a :: _ => if a = conn.user.nick then conn.set_nick (a ++ [95]) else bad_nick conn l
  | [] => bad_nick conn l

/-- Embedding of `normal::PING`: reply PONG with the same arguments. -/
def normPING (conn : Conn) (l : Line) : Conn :=
  conn.send_command (IRCCmd PONG_) l.args false

/-- Embedding of `normal::NICK`: when the line has an argument and its
prefix nick equals the current nick, adopt the new nick. -/
def normNICK (conn : Conn) (l : Line) : Conn :=
  match l.args with
  | [] => conn
  | a :: _ =>
    match l.pfx with
    | some u => if u.nick = conn.user.nick then { conn with user := conn.user.with_nick a }
                else conn
    | none => conn

/-- Embedding of `handlers::handle_line`: dispatch keyed on the login
flag and the command. -/
def handle_line (conn : Conn) (l : Line) : Conn :=
  if conn.logged_in = false then
    match l.command with
    | IRCCode 1 => RPL_WELCOME conn l
    | IRCCode 433 => ERR_NICKNAMEINUSE conn l
    | IRCCode 432 => bad_nick conn l
    | IRCCode 436 => bad_nick conn l
    | IRCCode 437 => bad_nick conn l
    | IRCCmd c => if c = PING_ then normPING conn l else conn
    | _ => conn
  else
    match l.command with
    | IRCCmd c =>
      if c = PING_ then normPING conn l
      else if c = NICK_ then normNICK conn l
      else conn
    | _ => conn

/-- Inbound part of the event loop of `Conn::run`: parse each line
(dropping unparsable ones, stopping on a parse task failure), dispatch
it to the handlers, and emit a LineReceived event exactly when the
login flag is set after that dispatch.  Returns the final state and the
emitted events in order. -/
def runLines (conn : Conn) : List (List Nat) → Conn × List Line
  | [] => (conn, [])
  | raw :: rest =>
    match Line.parse raw with
    | .error _ => (conn, [])
    | .ok none => runLines conn rest
    | .ok (some l) =>
      let conn2 := handle_line conn l
      let r := runLines conn2 rest
      (r.1, (if conn2.logged_in then [l] else []) ++ r.2)

/-- Checker for the absence of a 001 line in an inbound sequence: no
element parses to a line whose command is numeric 1. -/
def no001 (lines : List (List Nat)) : Bool :=
  lines.all (fun raw =>
    match Line.parse raw with
    | .ok (some l) => !(decide (l.command = IRCCode 1))
    | _ => true)

/-- Command token of an input as described by the spec: the text up to
the first space, or the whole input. -/
def cmdTokOf (v : List Nat) : List Nat :=
  match posElem 32 v with
  | none => v
  | some i => v.take i

/-- Remainder after the command token as described by the spec. -/
def cmdRestOf (v : List Nat) : List Nat :=
  match posElem 32 v with
  | none => []
  | some i => v.drop (i + 1)

/-- Prefix comparison used by the Rust `Eq` on `Line`: `User` equality
is raw-byte-string equality. -/
def pfxBeq : Option User → Option User → Bool
  | none, none => true
  | some a, some b => decide (a.raw = b.raw)
  | _, _ => false

/-- Rendering of the optional prefix as emitted by `Line::to_raw`: a
colon, the raw user bytes and a space. -/
def pfxPart : Option User → List Nat
  | none => []
  | some u => 58 :: (u.raw ++ [32])

/-- Roundtrip check of claim C2: parsing the serialization succeeds and
returns the same line, with prefixes compared by raw bytes as the Rust
`Eq` does. -/
def rtCheck (l : Line) : Bool :=
  match Line.parse l.to_raw with
  | .ok (some res) =>
    pfxBeq res.pfx l.pfx && decide (res.command = l.command) &&
      decide (res.args = l.args)
  | _ => false

/-- Absence of a space. -/
def noSp (a : List Nat) : Bool := !(a.contains 32)

/-- Well-formedness of a non-final argument: no space, no leading
colon. -/
def midOK (a : List Nat) : Bool := noSp a && !(a.head? == some 58)

/-- Well-formedness of the final non-CTCP argument: it either contains a
space (then it is colon-prefixed on the wire and anything roundtrips),
or it is nonempty, has no leading colon and no space. -/
def lastOK (a : List Nat) : Bool :=
  a.contains 32 || (!(a == []) && !(a.head? == some 58) && noSp a)

/-- Absence of CR and LF bytes. -/
def noCRLF (a : List Nat) : Bool := !(a.contains 13) && !(a.contains 10)

/-- Well-formedness of the optional prefix: its raw bytes contain no
space. -/
def pfxOK (p : Option User) : Bool := p.all (fun u => noSp u.raw)

/-- Command-side conditions of the amended roundtrip claim. -/
def cmdOK (l : Line) : Bool :=
  match l.command with
  | IRCCmd c =>
    !(c == []) && c.all isAsciiAlphaB &&
      ((!(c == PRIVMSG_) && !(c == NOTICE_)) ||
        (l.args.getLast?).all (fun a => !(a.head? == some 1)))
  | IRCCode n => decide (n < 1000)
  | IRCAction dst => midOK dst
  | IRCCTCP c dst => midOK dst && noSp c && !(c == ACTION_)
  | IRCCTCPReply c dst => midOK dst && noSp c

/-- Argument-side conditions of the amended roundtrip claim. -/
def argsOK (l : Line) : Bool :=
  if l.command.is_ctcp then decide (l.args.length ≤ 1)
  else l.args.dropLast.all midOK && (l.args.getLast?).all lastOK

/-- Hypotheses of the amended roundtrip claim C2. -/
def rtHyp (l : Line) : Bool :=
  pfxOK l.pfx && cmdOK l && argsOK l && l.args.all noCRLF

/-! Helper lemmas about `posElem`, `take`/`drop` and the fueled loops. -/

theorem posElem_of_not_mem {t : Nat} : ∀ {xs : List Nat}, t ∉ xs → posElem t xs = none
  | [], _ => rfl
  | b :: rest, h => by
    have hb : b ≠ t := fun hbt => h (hbt ▸ List.mem_cons_self b rest)
    have hr : t ∉ rest := fun hm => h (List.mem_cons_of_mem b hm)
    simp [posElem, hb, posElem_of_not_mem hr]

theorem posElem_append_of_not_mem {t : Nat} (xs ys : List Nat) (h : t ∉ xs) :
    posElem t (xs ++ ys) = (posElem t ys).map (fun i => xs.length + i) := by
  induction xs with
  | nil => cases hy : posElem t ys <;> simp [hy]
  | cons b rest ih =>
    have hb : b ≠ t := fun hbt => h (hbt ▸ List.mem_cons_self b rest)
    have hr : t ∉ rest := fun hm => h (List.mem_cons_of_mem b hm)
    rw [List.cons_append]
    simp only [posElem, hb, if_false, ih hr, List.length_cons]
    cases posElem t ys with
    | none => rfl
    | some i =>
      simp only [Option.map_some']
      congr 1
      omega

theorem posElem_append_self {t : Nat} (xs ys : List Nat) (h : t ∉ xs) :
    posElem t (xs ++ t :: ys) = some xs.length := by
  rw [posElem_append_of_not_mem xs (t :: ys) h]
  simp [posElem]

theorem parseArgsN_fuel :
    ∀ (f g : Nat) (v : List Nat), v.length ≤ f → v.length ≤ g →
      parseArgsN f v = parseArgsN g v := by
  intro f
  induction f with
  | zero =>
    intro g v hf _
    have : v = [] := List.length_eq_zero.mp (Nat.le_zero.mp hf)
    subst this
    cases g <;> rfl
  | succ f ih =>
    intro g v hf hg
    cases v with
    | nil => cases g <;> rfl
    | cons b rest =>
      cases g with
      | zero => simp at hg
      | succ g =>
        simp only [parseArgsN]
        cases hb : decide (b = 58) with
        | true => simp [of_decide_eq_true hb]
        | false =>
          have hb2 := of_decide_eq_false hb
          simp only [hb2, if_false]
          cases hp : posElem 32 (b :: rest) with
          | none => rfl
          | some idx =>
            have hlen : ((b :: rest).drop (idx + 1)).length ≤ f := by
              simp only [List.length_drop, List.length_cons]
              simp only [List.length_cons] at hf
              omega
            have hlen2 : ((b :: rest).drop (idx + 1)).length ≤ g := by
              simp only [List.length_drop, List.length_cons]
              simp only [List.length_cons] at hg
              omega
            simp only [ih g ((b :: rest).drop (idx + 1)) hlen hlen2]

theorem parseArgsN_eq_parseArgs {f : Nat} {v : List Nat} (h : v.length ≤ f) :
    parseArgsN f v = parseArgs v :=
  parseArgsN_fuel f v.length v h (Nat.le_refl _)

theorem parseArgs_nil : parseArgs [] = [] := rfl

theorem parseArgs_colon (rest : List Nat) : parseArgs (58 :: rest) = [rest] := by
  simp [parseArgs, parseArgsN]

theorem parseArgs_last {b : Nat} {rest : List Nat} (hb : b ≠ 58)
    (h : posElem 32 (b :: rest) = none) : parseArgs (b :: rest) = [b :: rest] := by
  simp [parseArgs, parseArgsN, hb, h]

theorem parseArgs_split {b : Nat} {rest : List Nat} {idx : Nat} (hb : b ≠ 58)
    (h : posElem 32 (b :: rest) = some idx) :
    parseArgs (b :: rest) =
      (b :: rest).take idx :: parseArgs ((b :: rest).drop (idx + 1)) := by
  have : parseArgs (b :: rest) = parseArgsN (rest.length + 1) (b :: rest) := rfl
  rw [this]
  simp only [parseArgsN, hb, if_false, h]
  rw [parseArgsN_eq_parseArgs]
  simp only [List.length_drop, List.length_cons]
  omega

theorem parseArgs_tok {m : List Nat} (rest : List Nat) (hsp : (32 : Nat) ∉ m)
    (hc : m.head? ≠ some 58) : parseArgs (m ++ 32 :: rest) = m :: parseArgs rest := by
  cases m with
  | nil =>
    have h0 : posElem 32 ((32 : Nat) :: rest) = some 0 := by simp [posElem]
    rw [List.nil_append, parseArgs_split (by omega) h0]
    simp
  | cons b m2 =>
    have hb58 : b ≠ 58 := by
      intro hb
      exact hc (by rw [hb]; rfl)
    have hb32 : b ≠ 32 := fun hb => hsp (hb ▸ List.mem_cons_self b m2)
    have hp : posElem 32 ((b :: m2) ++ 32 :: rest) = some (b :: m2).length :=
      posElem_append_self (b :: m2) rest hsp
    rw [List.cons_append] at hp ⊢
    have hp2 : posElem 32 (b :: (m2 ++ 32 :: rest)) = some (m2.length + 1) := by
      rw [hp]; simp
    rw [parseArgs_split hb58 hp2]
    have htk : (b :: (m2 ++ 32 :: rest)).take (m2.length + 1) = b :: m2 := by
      rw [List.take_succ_cons]
      have : (m2 ++ 32 :: rest).take m2.length = m2 := List.take_left m2 (32 :: rest)
      rw [this]
    have hdp : (b :: (m2 ++ 32 :: rest)).drop (m2.length + 1 + 1) = rest := by
      rw [List.drop_succ_cons]
      have he : m2 ++ 32 :: rest = (m2 ++ [32]) ++ rest := by simp
      rw [he]
      have : (m2 ++ [32]).length = m2.length + 1 := by simp
      rw [← this]
      exact List.drop_left (m2 ++ [32]) rest
    rw [htk, hdp]

theorem parseArgs_join (ms : List (List Nat)) (F : List Nat)
    (h : ∀ m ∈ ms, (32 : Nat) ∉ m ∧ m.head? ≠ some 58) :
    parseArgs ((ms.map (fun a => a ++ [32])).flatten ++ F) = ms ++ parseArgs F := by
  induction ms with
  | nil => simp
  | cons m ms2 ih =>
    have hm := h m (List.mem_cons_self m ms2)
    have hrest : ∀ x ∈ ms2, (32 : Nat) ∉ x ∧ x.head? ≠ some 58 :=
      fun x hx => h x (List.mem_cons_of_mem m hx)
    simp only [List.map_cons, List.flatten_cons, List.append_assoc]
    have he : m ++ [32] ++ ((ms2.map (fun a => a ++ [32])).flatten ++ F) =
        m ++ 32 :: ((ms2.map (fun a => a ++ [32])).flatten ++ F) := by simp
    rw [← List.append_assoc, he, parseArgs_tok _ hm.1 hm.2, ih hrest]
    rfl

theorem natDecDigitsN_fuel :
    ∀ (f g n : Nat), n < f → n < g → natDecDigitsN f n = natDecDigitsN g n := by
  intro f
  induction f with
  | zero => intro g n hf; omega
  | succ f ih =>
    intro g n hf hg
    cases g with
    | zero => omega
    | succ g =>
      simp only [natDecDigitsN]
      by_cases h10 : n < 10
      · simp [h10]
      · have hlt : n / 10 < n := Nat.div_lt_self (by omega) (by omega)
        simp only [h10, if_false]
        rw [ih g (n / 10) (by omega) (by omega)]

theorem natDecDigits_lt {n : Nat} (h : n < 10) : natDecDigits n = [48 + n] := by
  simp [natDecDigits, natDecDigitsN, h]

theorem natDecDigits_ge {n : Nat} (h : 10 ≤ n) :
    natDecDigits n = natDecDigits (n / 10) ++ [48 + n % 10] := by
  have hlt : n / 10 < n := Nat.div_lt_self (by omega) (by omega)
  have step : natDecDigitsN (n + 1) n =
      if n < 10 then [48 + n] else natDecDigitsN n (n / 10) ++ [48 + n % 10] := rfl
  rw [show natDecDigits n = natDecDigitsN (n + 1) n from rfl, step,
    if_neg (Nat.not_lt.mpr h)]
  congr 1
  exact natDecDigitsN_fuel n (n / 10 + 1) (n / 10) (by omega) (by omega)

theorem natDecDigits_all_digits : ∀ (n : Nat), ∀ b ∈ natDecDigits n, isDigitB b = true := by
  intro n
  induction n using Nat.strong_induction_on with
  | _ n ih =>
    by_cases h10 : n < 10
    · rw [natDecDigits_lt h10]
      intro b hb
      simp at hb
      subst hb
      simp [isDigitB]
      omega
    · rw [natDecDigits_ge (by omega)]
      intro b hb
      rcases List.mem_append.mp hb with h1 | h2
      · exact ih (n / 10) (Nat.div_lt_self (by omega) (by omega)) b h1
      · simp at h2
        subst h2
        simp [isDigitB]
        have := Nat.mod_lt n (show 0 < 10 by omega)
        omega

theorem natDecDigits_ne_nil (n : Nat) : natDecDigits n ≠ [] := by
  by_cases h10 : n < 10
  · rw [natDecDigits_lt h10]; simp
  · rw [natDecDigits_ge (by omega)]; simp

theorem natDecDigits_len_of_lt10 {n : Nat} (h : n < 10) :
    (natDecDigits n).length = 1 := by rw [natDecDigits_lt h]; rfl

theorem natDecDigits_len_of_lt100 {n : Nat} (h : n < 100) :
    (natDecDigits n).length ≤ 2 := by
  by_cases h10 : n < 10
  · rw [natDecDigits_len_of_lt10 h10]; omega
  · rw [natDecDigits_ge (by omega)]
    simp only [List.length_append, List.length_cons, List.length_nil]
    have : n / 10 < 10 := by omega
    rw [natDecDigits_len_of_lt10 this]

theorem natDecDigits_len_of_lt1000 {n : Nat} (h : n < 1000) :
    (natDecDigits n).length ≤ 3 := by
  by_cases h10 : n < 10
  · rw [natDecDigits_len_of_lt10 h10]; omega
  · rw [natDecDigits_ge (by omega)]
    simp only [List.length_append, List.length_cons, List.length_nil]
    have : n / 10 < 100 := by omega
    have := natDecDigits_len_of_lt100 this
    omega

theorem decVal_append_digit (ds : List Nat) (b : Nat) :
    decVal (ds ++ [b]) = decVal ds * 10 + (b - 48) := by
  simp [decVal, List.foldl_append]

theorem decVal_natDecDigits : ∀ (n : Nat), decVal (natDecDigits n) = n := by
  intro n
  induction n using Nat.strong_induction_on with
  | _ n ih =>
    by_cases h10 : n < 10
    · rw [natDecDigits_lt h10]
      simp [decVal]
    · rw [natDecDigits_ge (by omega), decVal_append_digit,
        ih (n / 10) (Nat.div_lt_self (by omega) (by omega))]
      omega

theorem decVal_replicate_zeros (k : Nat) (ds : List Nat) :
    decVal (List.replicate k 48 ++ ds) = decVal ds := by
  induction k with
  | zero => rfl
  | succ k ih =>
    rw [List.replicate_succ, List.cons_append]
    have h0 : decVal ((48 : Nat) :: (List.replicate k 48 ++ ds)) =
        decVal (List.replicate k 48 ++ ds) := by
      simp [decVal]
    rw [h0, ih]

theorem zeroPad3_all_digits (n : Nat) : ∀ b ∈ zeroPad3 n, isDigitB b = true := by
  intro b hb
  rcases List.mem_append.mp hb with h1 | h2
  · have := List.eq_of_mem_replicate h1
    subst this
    rfl
  · exact natDecDigits_all_digits n b h2

theorem zeroPad3_length {n : Nat} (h : n < 1000) : (zeroPad3 n).length = 3 := by
  have hl := natDecDigits_len_of_lt1000 h
  simp only [zeroPad3, List.length_append, List.length_replicate]
  omega

theorem decVal_zeroPad3 (n : Nat) : decVal (zeroPad3 n) = n := by
  rw [zeroPad3, decVal_replicate_zeros, decVal_natDecDigits]

theorem zeroPad3_ne_nil (n : Nat) : zeroPad3 n ≠ [] := by
  simp only [zeroPad3]
  intro h
  rcases List.append_eq_nil.mp h with ⟨_, h2⟩
  exact natDecDigits_ne_nil n h2

theorem zeroPad3_not_mem_32 (n : Nat) : (32 : Nat) ∉ zeroPad3 n := by
  intro h
  have := zeroPad3_all_digits n 32 h
  simp [isDigitB] at this

/-! Effect lemmas about the connection operations. -/

theorem send_command_outbox (conn : Conn) (cmd : Command) (args : List (List Nat))
    (colon : Bool) :
    (conn.send_command cmd args colon).outbox =
      conn.outbox ++ [SendReq.mk cmd args colon] := rfl

theorem send_command_logged_in (conn : Conn) (cmd : Command) (args : List (List Nat))
    (colon : Bool) : (conn.send_command cmd args colon).logged_in = conn.logged_in := rfl

theorem set_nick_outbox (conn : Conn) (nick : List Nat) :
    (conn.set_nick nick).outbox = conn.outbox ++ [SendReq.mk (IRCCmd NICK_) [nick] false] := by
  rw [Conn.set_nick]
  split <;> rfl

theorem set_nick_logged_in (conn : Conn) (nick : List Nat) :
    (conn.set_nick nick).logged_in = conn.logged_in := by
  rw [Conn.set_nick]
  split <;> rfl

theorem set_nick_user (conn : Conn) (nick : List Nat) :
    (conn.set_nick nick).user =
      if conn.logged_in = false then conn.user.with_nick nick else conn.user := by
  rw [Conn.set_nick]
  split <;> simp_all [Conn.send_command]

theorem quit_outbox_empty (conn : Conn) :
    (conn.quit []).outbox = conn.outbox ++ [SendReq.mk (IRCCmd QUIT_) [] false] := rfl

theorem quit_logged_in (conn : Conn) (msg : List Nat) :
    (conn.quit msg).logged_in = conn.logged_in := by
  rw [Conn.quit]
  split <;> rfl

theorem bad_nick_outbox (conn : Conn) (l : Line) :
    (bad_nick conn l).outbox = conn.outbox ++
      [match mutRev (match l.args with | [] => conn.user.nick | a :: _ => a) with
       | some m => SendReq.mk (IRCCmd NICK_) [m] false
       | none => SendReq.mk (IRCCmd QUIT_) [] false] := by
  rw [bad_nick]
  cases mutRev (match l.args with | [] => conn.user.nick | a :: _ => a) with
  | some m => exact set_nick_outbox conn m
  | none => exact quit_outbox_empty conn

theorem bad_nick_logged_in (conn : Conn) (l : Line) :
    (bad_nick conn l).logged_in = conn.logged_in := by
  rw [bad_nick]
  cases mutRev (match l.args with | [] => conn.user.nick | a :: _ => a) with
  | some m => exact set_nick_logged_in conn m
  | none => exact quit_logged_in conn []

/-- C1: `Line::parse` is not total.  On the input
`PRIVMSG :\x01VERSION\x01` — a PRIVMSG line whose single argument starts
with byte 0x01 — the CTCP branch pops the only argument and then indexes
`args[0]` on an empty vector, which is a task failure (modelled as
`.error ()`), not a `None` return.  With a destination argument present
(two arguments), the same line parses fine. -/
theorem c1_parse_single_arg_ctcp_panics :
    Line.parse (PRIVMSG_ ++ [32, 58, 1] ++ [86, 69, 82, 83, 73, 79, 78] ++ [1]) =
      .error () ∧
    Line.parse (PRIVMSG_ ++ [32, 35, 99, 32, 58, 1] ++ [86, 69, 82, 83, 73, 79, 78] ++ [1]) =
      .ok (some (Line.mk none (IRCCTCP [86, 69, 82, 83, 73, 79, 78] [35, 99]) [])) := by
  decide

/-- C4 counterexample: `Conn::send_command` renders the numeric code 1 as
the single byte 49 with no zero padding, so the emitted command token of
the frame is 1 character, not 3; and `Line::to_raw` renders the numeric
code 1000 as 4 digits. -/
theorem c4_counterexample :
    send_frame (IRCCode 1) [] false = [49, 13, 10] ∧
    (Line.mk none (IRCCode 1000) []).to_raw = [49, 48, 48, 48] := by decide

/-- C4 (amended): for a numeric code below 1000, `Line::to_raw` renders
the command token as exactly 3 zero-padded decimal digits whose value is
the code; `Conn::send_command` instead renders the plain unpadded
decimal digits of the code followed by CR LF. -/
theorem c4_numeric_pad_amended (n : Nat) (h : n < 1000) :
    (Line.mk none (IRCCode n) []).to_raw = zeroPad3 n ∧
    (zeroPad3 n).length = 3 ∧
    (∀ b ∈ zeroPad3 n, isDigitB b = true) ∧
    decVal (zeroPad3 n) = n ∧
    send_frame (IRCCode n) [] false = natDecDigits n ++ [13, 10] := by
  refine ⟨?_, zeroPad3_length h, zeroPad3_all_digits n, decVal_zeroPad3 n, ?_⟩
  · simp [Line.to_raw, Command.is_ctcp]
  · have hlen : (natDecDigits n).length ≤ 510 := by
      have := natDecDigits_len_of_lt1000 h
      omega
    simp [send_frame, sendPayload, sendPieces, appendTrunc, Command.is_ctcp,
      List.take_of_length_le hlen]

/-- Witness for C4 at n = 5. -/
theorem c4_witness :
    (5 : Nat) < 1000 ∧
    ((Line.mk none (IRCCode 5) []).to_raw = zeroPad3 5 ∧
     (zeroPad3 5).length = 3 ∧
     (∀ b ∈ zeroPad3 5, isDigitB b = true) ∧
     decVal (zeroPad3 5) = 5 ∧
     send_frame (IRCCode 5) [] false = natDecDigits 5 ++ [13, 10]) :=
  ⟨by decide, c4_numeric_pad_amended 5 (by decide)⟩

/-- C9: in either login state, a line whose command is the named command
PING is answered by a `send_command` of the named command PONG carrying
exactly the PING line's argument list. -/
theorem c9_ping_pong (conn : Conn) (l : Line) (h : l.command = IRCCmd PING_) :
    handle_line conn l = conn.send_command (IRCCmd PONG_) l.args false ∧
    (handle_line conn l).outbox = conn.outbox ++ [SendReq.mk (IRCCmd PONG_) l.args false] := by
  have he : handle_line conn l = normPING conn l := by
    by_cases hl : conn.logged_in = false <;> simp [handle_line, h, hl, PING_, NICK_]
  exact ⟨he, by rw [he]; rfl⟩

/-- Witness for C9: a concrete not-logged-in connection answering
`PING :x`. -/
theorem c9_witness :
    (Line.mk none (IRCCmd PING_) [[120]]).command = IRCCmd PING_ ∧
    (handle_line (Conn.mk false (User.parse [110]) []) (Line.mk none (IRCCmd PING_) [[120]]) =
       (Conn.mk false (User.parse [110]) []).send_command (IRCCmd PONG_) [[120]] false ∧
     (handle_line (Conn.mk false (User.parse [110]) []) (Line.mk none (IRCCmd PING_) [[120]])).outbox =
       (Conn.mk false (User.parse [110]) []).outbox ++ [SendReq.mk (IRCCmd PONG_) [[120]] false]) :=
  ⟨rfl, c9_ping_pong (Conn.mk false (User.parse [110]) []) (Line.mk none (IRCCmd PING_) [[120]]) rfl⟩

/-- C10: `Conn::set_nick` always sends a NICK command for the new nick;
it rebuilds the local `User` (re-render plus re-parse, via `with_nick`)
exactly when not logged in, and leaves it unchanged when logged in; in
the logged-in state the nick is adopted only by the NICK-echo handler,
when the echo's prefix nick matches the current nick. -/
theorem c10_set_nick_frame (conn : Conn) (nick : List Nat) :
    (conn.set_nick nick).outbox = conn.outbox ++ [SendReq.mk (IRCCmd NICK_) [nick] false] ∧
    (conn.set_nick nick).logged_in = conn.logged_in ∧
    (conn.logged_in = false → (conn.set_nick nick).user = conn.user.with_nick nick) ∧
    (conn.logged_in = true → (conn.set_nick nick).user = conn.user) ∧
    (∀ (l : Line) (u : User) (a : List Nat) (rest : List (List Nat)),
      conn.logged_in = true → l.command = IRCCmd NICK_ → l.pfx = some u →
      l.args = a :: rest → u.nick = conn.user.nick →
      (handle_line conn l).user = conn.user.with_nick a) := by
  refine ⟨set_nick_outbox conn nick, set_nick_logged_in conn nick, ?_, ?_, ?_⟩
  · intro h
    rw [set_nick_user, if_pos h]
  · intro h
    rw [set_nick_user]
    simp [h]
  · intro l u a rest hlog hcmd hpfx hargs hnick
    simp [handle_line, hlog, hcmd, normNICK, hargs, hpfx, hnick, PING_, NICK_]

/-- Witness for C10 on a concrete logged-in connection and NICK echo. -/
theorem c10_witness :
    ((Conn.mk true (User.parse [110, 33, 117]) []).set_nick [109]).outbox =
      (Conn.mk true (User.parse [110, 33, 117]) []).outbox ++
        [SendReq.mk (IRCCmd NICK_) [[109]] false] ∧
    ((Conn.mk true (User.parse [110, 33, 117]) []).set_nick [109]).user =
      (Conn.mk true (User.parse [110, 33, 117]) []).user ∧
    (handle_line (Conn.mk true (User.parse [110, 33, 117]) [])
        (Line.mk (some (User.parse [110])) (IRCCmd NICK_) [[109]])).user =
      (Conn.mk true (User.parse [110, 33, 117]) []).user.with_nick [109] := by
  have h := c10_set_nick_frame (Conn.mk true (User.parse [110, 33, 117]) []) [109]
  refine ⟨h.1, h.2.2.2.1 rfl, ?_⟩
  exact h.2.2.2.2 (Line.mk (some (User.parse [110])) (IRCCmd NICK_) [[109]])
    (User.parse [110]) [109] [] rfl rfl rfl rfl (by decide)

/-- C3 counterexample: numeric 433 (ERR_NICKNAMEINUSE) with args[0] equal
to the current nick does not flip the last non-underscore byte.  With
current nick `ab__` and a 433 carrying `ab__`, the handler sends NICK
`ab___` (underscore appended), not the claimed `a___`. -/
theorem c3_counterexample :
    (handle_line (Conn.mk false (User.parse [97, 98, 95, 95]) [])
        (Line.mk none (IRCCode 433) [[97, 98, 95, 95]])).outbox =
      [SendReq.mk (IRCCmd NICK_) [[97, 98, 95, 95, 95]] false] ∧
    [[97, 98, 95, 95, 95]] ≠ [[97, 95, 95, 95]] := by decide

/-- C3 (amended): while not logged in, numerics 432/436/437 — and 433
when args[0] is absent or differs from the current nick — take the
offending nick (args[0] if present, else the current nick), replace its
last non-underscore byte with an underscore and send NICK with the
result, or send QUIT with no message if the nick is all underscores
(`mutRev` returns none).  Numeric 433 with args[0] equal to the current
nick instead sends NICK with args[0] plus an appended underscore.  On
nick `ab__` the mutation yields `a___`; on `___` it yields nothing. -/
theorem c3_collision_recovery_amended (conn : Conn) (l : Line) (n : Nat)
    (hlog : conn.logged_in = false) (hcmd : l.command = IRCCode n) :
    ((n = 432 ∨ n = 436 ∨ n = 437) →
      (handle_line conn l).outbox = conn.outbox ++
        [match mutRev (match l.args with | [] => conn.user.nick | a :: _ => a) with
         | some m => SendReq.mk (IRCCmd NICK_) [m] false
         | none => SendReq.mk (IRCCmd QUIT_) [] false]) ∧
    (n = 433 → ∀ (a : List Nat) (rest : List (List Nat)),
      l.args = a :: rest → a = conn.user.nick →
      (handle_line conn l).outbox =
        conn.outbox ++ [SendReq.mk (IRCCmd NICK_) [a ++ [95]] false]) ∧
    (n = 433 →
      (l.args = [] ∨ ∀ (a : List Nat) (rest : List (List Nat)),
        l.args = a :: rest → a ≠ conn.user.nick) →
      (handle_line conn l).outbox = conn.outbox ++
        [match mutRev (match l.args with | [] => conn.user.nick | a :: _ => a) with
         | some m => SendReq.mk (IRCCmd NICK_) [m] false
         | none => SendReq.mk (IRCCmd QUIT_) [] false]) ∧
    mutRev [97, 98, 95, 95] = some [97, 95, 95, 95] ∧
    mutRev [95, 95, 95] = none := by
  refine ⟨?_, ?_, ?_, by decide, by decide⟩
  · rintro (h | h | h) <;> subst h <;>
      simp only [handle_line, hlog, if_true, hcmd] <;>
      exact bad_nick_outbox conn l
  · intro h a rest hargs heq
    subst h
    have hh : handle_line conn l = ERR_NICKNAMEINUSE conn l := by
      simp [handle_line, hlog, hcmd]
    rw [hh, ERR_NICKNAMEINUSE, hargs]
    simp only [heq, if_pos rfl]
    exact set_nick_outbox conn (conn.user.nick ++ [95])
  · intro h hside
    subst h
    have hh : handle_line conn l = ERR_NICKNAMEINUSE conn l := by
      simp [handle_line, hlog, hcmd]
    rw [hh, ERR_NICKNAMEINUSE]
    cases hargs : l.args with
    | nil =>
      have hb := bad_nick_outbox conn l
      rw [hargs] at hb
      simpa using hb
    | cons a rest =>
      have hne : a ≠ conn.user.nick := by
        rcases hside with h0 | h0
        · rw [hargs] at h0; exact absurd h0 (by simp)
        · exact h0 a rest hargs
      have hb := bad_nick_outbox conn l
      rw [hargs] at hb
      simp only [hne, if_false]
      simpa using hb

/-- Witness for C3: a concrete 436 line carrying nick `ab__` against a
connection whose nick is `n`. -/
theorem c3_witness :
    (Conn.mk false (User.parse [110]) []).logged_in = false ∧
    (Line.mk none (IRCCode 436) [[97, 98, 95, 95]]).command = IRCCode 436 ∧
    (handle_line (Conn.mk false (User.parse [110]) [])
        (Line.mk none (IRCCode 436) [[97, 98, 95, 95]])).outbox =
      (Conn.mk false (User.parse [110]) []).outbox ++
        [SendReq.mk (IRCCmd NICK_) [[97, 95, 95, 95]] false] := by
  refine ⟨rfl, rfl, ?_⟩
  have h := (c3_collision_recovery_amended (Conn.mk false (User.parse [110]) [])
    (Line.mk none (IRCCode 436) [[97, 98, 95, 95]]) 436 rfl rfl).1 (Or.inr (Or.inl rfl))
  rw [h]
  decide

theorem RPL_WELCOME_logged_in (conn : Conn) (l : Line) :
    (RPL_WELCOME conn l).logged_in = true := by
  rw [RPL_WELCOME]
  cases l.args <;> rfl

theorem ERR_NICKNAMEINUSE_logged_in (conn : Conn) (l : Line) :
    (ERR_NICKNAMEINUSE conn l).logged_in = conn.logged_in := by
  rw [ERR_NICKNAMEINUSE]
  cases l.args with
  | nil => exact bad_nick_logged_in conn l
  | cons a rest =>
    by_cases h : a = conn.user.nick
    · simp only [h, if_pos rfl]
      exact set_nick_logged_in conn (conn.user.nick ++ [95])
    · simp only [h, if_false]
      exact bad_nick_logged_in conn l

theorem normPING_logged_in (conn : Conn) (l : Line) :
    (normPING conn l).logged_in = conn.logged_in := rfl

theorem handle_line_logged_in_iff (conn : Conn) (l : Line) (h : conn.logged_in = false) :
    ((handle_line conn l).logged_in = true ↔ l.command = IRCCode 1) := by
  rw [handle_line, if_pos h]
  split
  · rename_i heq
    simp [RPL_WELCOME_logged_in, heq]
  · rename_i heq
    rw [ERR_NICKNAMEINUSE_logged_in, h, heq]
    simp
  · rename_i heq
    rw [bad_nick_logged_in, h, heq]
    simp
  · rename_i heq
    rw [bad_nick_logged_in, h, heq]
    simp
  · rename_i heq
    rw [bad_nick_logged_in, h, heq]
    simp
  · rename_i c heq
    rw [heq]
    by_cases hp : c = PING_
    · rw [if_pos hp, normPING_logged_in, h]
      simp
    · rw [if_neg hp, h]
      simp
  · rename_i hne1 hne2 hne3 hne4 hne5 hne6
    rw [h]
    simp only [Bool.false_eq_true, false_iff]
    intro hc
    exact hne1 hc

/-- C6: starting not logged in, if no inbound line parses to a numeric
001, the event loop emits no LineReceived event at all; and for any
not-logged-in state the handler dispatch sets the login flag exactly on
a numeric 001 line. -/
theorem c6_no_event_before_welcome (conn : Conn) (lines : List (List Nat))
    (hlog : conn.logged_in = false) (h001 : no001 lines = true) :
    (runLines conn lines).2 = [] ∧
    (∀ (c : Conn) (l : Line), c.logged_in = false →
      ((handle_line c l).logged_in = true ↔ l.command = IRCCode 1)) := by
  refine ⟨?_, fun c l hc => handle_line_logged_in_iff c l hc⟩
  induction lines generalizing conn with
  | nil => rfl
  | cons raw rest ih =>
    have hsplit : (match Line.parse raw with
        | .ok (some l) => !(decide (l.command = IRCCode 1))
        | _ => true) = true ∧ no001 rest = true := by
      rw [no001, List.all_cons] at h001
      exact ⟨(Bool.and_eq_true _ _ |>.mp h001).1, (Bool.and_eq_true _ _ |>.mp h001).2⟩
    cases hp : Line.parse raw with
    | error e =>
      simp only [runLines, hp]
    | ok o =>
      cases o with
      | none =>
        simp only [runLines, hp]
        exact ih conn hlog hsplit.2
      | some l =>
        have hne : l.command ≠ IRCCode 1 := by
          have := hsplit.1
          rw [hp] at this
          simpa using this
        have hlog2 : (handle_line conn l).logged_in = false := by
          have hiff := handle_line_logged_in_iff conn l hlog
          cases hb : (handle_line conn l).logged_in with
          | false => rfl
          | true => exact absurd (hiff.mp hb) hne
        simp only [runLines, hp, hlog2, if_false, List.nil_append]
        exact ih (handle_line conn l) hlog2 hsplit.2

/-- Witness for C6: a PING, a numeric 005 and a stray named line arrive
before any 001; no event is emitted. -/
theorem c6_witness :
    (Conn.mk false (User.parse [110]) []).logged_in = false ∧
    no001 [[80, 73, 78, 71, 32, 58, 120], [48, 48, 53, 32, 97], [98, 97, 100]] = true ∧
    ((runLines (Conn.mk false (User.parse [110]) [])
        [[80, 73, 78, 71, 32, 58, 120], [48, 48, 53, 32, 97], [98, 97, 100]]).2 = [] ∧
     (∀ (c : Conn) (l : Line), c.logged_in = false →
       ((handle_line c l).logged_in = true ↔ l.command = IRCCode 1))) :=
  ⟨rfl, by decide,
    c6_no_event_before_welcome (Conn.mk false (User.parse [110]) [])
      [[80, 73, 78, 71, 32, 58, 120], [48, 48, 53, 32, 97], [98, 97, 100]] rfl (by decide)⟩

theorem take_take_append (k : Nat) (p q : List Nat) :
    (p.take k ++ q).take k = (p ++ q).take k := by
  by_cases h : k ≤ p.length
  · have h2 : (List.take k p).length = k := by
      rw [List.length_take]
      omega
    rw [List.take_append_eq_append_take, List.take_take, List.take_append_eq_append_take, h2]
    have h1 : min k k = k := by omega
    have h3 : k - p.length = 0 := by omega
    rw [h1, h3, Nat.sub_self]
  · have hp : p.take k = p := List.take_of_length_le (by omega)
    rw [hp]

theorem foldl_appendTrunc (ps : List (List Nat)) :
    ∀ (acc : List Nat), acc.length ≤ 510 →
      ps.foldl appendTrunc acc = (acc ++ ps.flatten).take 510 := by
  induction ps with
  | nil =>
    intro acc h
    rw [List.foldl_nil, List.flatten_nil, List.append_nil, List.take_of_length_le h]
  | cons p ps ih =>
    intro acc h
    rw [List.foldl_cons]
    have hlen : (appendTrunc acc p).length ≤ 510 := by
      rw [appendTrunc, List.length_append, List.length_take]
      omega
    rw [ih (appendTrunc acc p) hlen, appendTrunc, List.flatten_cons, List.append_assoc]
    have key : (List.take (510 - acc.length) p ++ ps.flatten).take (510 - acc.length) =
        (p ++ ps.flatten).take (510 - acc.length) := take_take_append _ p ps.flatten
    rw [List.take_append_eq_append_take, key, ← List.take_append_eq_append_take]

/-- C5: every frame produced by `Conn::send_command` is the rendered
payload cut at 510 bytes by raw byte count followed by exactly the two
terminator bytes CR LF, hence at most 512 bytes in total; every frame
`Conn::send_raw` enqueues is its chomped input cut the same way with the
same terminator, also at most 512 bytes. -/
theorem c5_frame_cap (cmd : Command) (args : List (List Nat)) (colon : Bool)
    (raw : List Nat) :
    send_frame cmd args colon = ((sendPieces cmd args colon).flatten).take 510 ++ [13, 10] ∧
    (send_frame cmd args colon).length ≤ 512 ∧
    (∀ f, sendRawFrame raw = some f →
      f = (chomp raw).take 510 ++ [13, 10] ∧ f.length ≤ 512) := by
  have hpay : send_frame cmd args colon =
      ((sendPieces cmd args colon).flatten).take 510 ++ [13, 10] := by
    rw [send_frame, sendPayload, foldl_appendTrunc _ [] (by simp), List.nil_append]
  refine ⟨hpay, ?_, ?_⟩
  · rw [hpay]
    simp only [List.length_append, List.length_take, List.length_cons, List.length_nil]
    omega
  · intro f hf
    rw [sendRawFrame] at hf
    by_cases hc : chomp raw = []
    · simp [hc] at hf
    · simp only [hc, if_neg, if_false] at hf
      have hf2 : f = (chomp raw).take 510 ++ [13, 10] := (Option.some.inj hf).symm
      refine ⟨hf2, ?_⟩
      rw [hf2]
      simp only [List.length_append, List.length_take, List.length_cons, List.length_nil]
      omega

/-- Witness for C5: a concrete PING frame and a concrete raw send. -/
theorem c5_witness :
    ((send_frame (IRCCmd PING_) [[120]] false).length ≤ 512) ∧
    sendRawFrame [104, 105] = some ((chomp [104, 105]).take 510 ++ [13, 10]) ∧
    ((chomp [104, 105]).take 510 ++ [13, 10]).length ≤ 512 :=
  ⟨(c5_frame_cap (IRCCmd PING_) [[120]] false [104, 105]).2.1, by decide,
   ((c5_frame_cap (IRCCmd PING_) [[120]] false [104, 105]).2.2 _ (by decide)).2⟩

theorem map_shift (x : Option Nat) (k : Nat) :
    (x.map (fun i => i + 1)).map (fun i => k + i) = x.map (fun i => k + 1 + i) := by
  cases x with
  | none => rfl
  | some i =>
    simp only [Option.map_some']
    exact congrArg some (by omega)

theorem scanUser_some (v : List Nat) (j : Nat) :
    ∀ (k : Nat), scanUser v k (some j) = (some j, (posElem 64 v).map (fun i => k + i)) := by
  induction v with
  | nil => intro k; simp [scanUser, posElem]
  | cons b rest ih =>
    intro k
    have hno : ¬((some j : Option Nat) = none ∧ b = 33) := by simp
    rw [scanUser, if_neg hno]
    by_cases hb : b = 64
    · subst hb
      rw [if_pos rfl]
      simp [posElem]
    · rw [if_neg hb, ih (k + 1)]
      simp only [posElem, hb, if_false, Prod.mk.injEq, true_and]
      cases posElem 64 rest with
      | none => rfl
      | some i =>
        simp only [Option.map_some']
        congr 1
        omega

theorem scanUser_none (v : List Nat) :
    ∀ (k : Nat), scanUser v k none =
      ((posElem 33 (v.take ((posElem 64 v).getD v.length))).map (fun i => k + i),
       (posElem 64 v).map (fun i => k + i)) := by
  induction v with
  | nil => intro k; simp [scanUser, posElem]
  | cons b rest ih =>
    intro k
    by_cases hb33 : b = 33
    · subst hb33
      rw [scanUser, if_pos ⟨rfl, rfl⟩, scanUser_some rest k (k + 1)]
      have h64 : (33 : Nat) ≠ 64 := by omega
      simp only [posElem, h64, if_false, Prod.mk.injEq]
      constructor
      · cases hp : posElem 64 rest with
        | none =>
          simp only [Option.map_none', Option.getD_none, List.length_cons,
            List.take_of_length_le (Nat.le_refl _)]
          simp [posElem]
        | some i =>
          simp only [Option.map_some', Option.getD_some, List.take_succ_cons]
          simp [posElem]
      · cases posElem 64 rest with
        | none => rfl
        | some i =>
          simp only [Option.map_some']
          congr 1
          omega
    · by_cases hb64 : b = 64
      · subst hb64
        have hno : ¬((none : Option Nat) = none ∧ (64 : Nat) = 33) := by simp
        rw [scanUser, if_neg hno, if_pos rfl]
        simp [posElem]
      · have hno : ¬((none : Option Nat) = none ∧ b = 33) := by simp [hb33]
        rw [scanUser, if_neg hno, if_neg hb64, ih (k + 1)]
        simp only [posElem, hb64, if_false, Prod.mk.injEq]
        constructor
        · cases hp : posElem 64 rest with
          | none =>
            simp only [Option.map_none', Option.getD_none, List.length_cons]
            have htk : (b :: rest).take (rest.length + 1) = b :: rest :=
              List.take_of_length_le (Nat.le_refl _)
            rw [htk]
            simp only [posElem, hb33, if_false, List.take_length]
            rw [map_shift]
          | some i =>
            simp only [Option.map_some', Option.getD_some, List.take_succ_cons]
            simp only [posElem, hb33, if_false]
            rw [map_shift]
        · cases posElem 64 rest with
          | none => rfl
          | some i =>
            simp only [Option.map_some']
            exact congrArg some (by omega)

theorem scanUser_start (v : List Nat) :
    scanUser v 0 none =
      (posElem 33 (v.take ((posElem 64 v).getD v.length)), posElem 64 v) := by
  rw [scanUser_none v 0]
  rw [Prod.mk.injEq]
  constructor
  · cases posElem 33 (v.take ((posElem 64 v).getD v.length)) <;> simp
  · cases posElem 64 v <;> simp

/-- C8: `User::parse` decomposes its input by the first bang (byte 33)
occurring before the first at (byte 64): the raw field is the input, the
nick is the text before the first of those delimiters (or the whole
string), the user part is the text between the bang and the at (or the
end) when a bang occurs before any at, and the host part is the text
after the first at.  A bang after the at is ignored, because the bang is
searched only within the text before the at. -/
theorem c8_user_parse_decomposition (v : List Nat) :
    (User.parse v).raw = v ∧
    (User.parse v).nick =
      v.take (match posElem 33 (v.take ((posElem 64 v).getD v.length)), posElem 64 v with
              | some i, _ => i
              | none, some j => j
              | none, none => v.length) ∧
    (User.parse v).userBytes =
      (posElem 33 (v.take ((posElem 64 v).getD v.length))).map
        (fun i => (v.take ((posElem 64 v).getD v.length)).drop (i + 1)) ∧
    (User.parse v).hostBytes = (posElem 64 v).map (fun i => v.drop (i + 1)) := by
  refine ⟨rfl, ?_, ?_, ?_⟩
  · simp only [User.parse, User.nick, scanUser_start]
  · simp only [User.parse, User.userBytes, scanUser_start]
    cases posElem 33 (v.take ((posElem 64 v).getD v.length)) <;> simp
  · simp only [User.parse, User.hostBytes, scanUser_start]
    cases posElem 64 v <;> simp [List.take_length]

theorem posElem_head (v : List Nat) (h : posElem 32 v = some 0) : v.head? = some 32 := by
  cases v with
  | nil => simp [posElem] at h
  | cons b r =>
    by_cases hb : b = 32
    · rw [hb]
      rfl
    · rw [posElem, if_neg hb] at h
      cases posElem 32 r <;> simp at h

theorem parsePfx_not_colon (v : List Nat) (h : v.head? ≠ some 58) :
    parsePfx v = some (none, v) := by
  cases v with
  | nil => rfl
  | cons b rest =>
    have hb : b ≠ 58 := by
      intro he
      exact h (by rw [he]; rfl)
    unfold parsePfx
    split
    · rename_i heq
      rw [List.cons.injEq] at heq
      exact absurd heq.1 hb
    · rfl

theorem parse_eq_parseRest (v : List Nat) (h : v.head? ≠ some 58) :
    Line.parse v = parseRest none v := by
  rw [Line.parse, parsePfx_not_colon v h]

theorem parseCmdTok_zero (v : List Nat) (hp : posElem 32 v = some 0) :
    parseCmdTok v = none := by
  rw [parseCmdTok, hp]

theorem parseCmdTok_nosp (v : List Nat) (hp : posElem 32 v = none) :
    parseCmdTok v = classifyCmd v [] := by
  rw [parseCmdTok, hp]

theorem parseCmdTok_sp (v : List Nat) (i : Nat) (hp : posElem 32 v = some (i + 1)) :
    parseCmdTok v = classifyCmd (v.take (i + 1)) (v.drop (i + 2)) := by
  rw [parseCmdTok, hp]
  rfl

theorem parseRest_tok_none (p : Option User) (v : List Nat)
    (h : parseCmdTok v = none) : parseRest p v = .ok none := by
  rw [parseRest, h]

theorem classifyCmd_digits (cmd R : List Nat) (h3 : cmd.length = 3)
    (hd : ∀ b ∈ cmd, isDigitB b = true) :
    classifyCmd cmd R = some (IRCCode (decVal cmd), false, R) := by
  have hcond : (cmd.length == 3 && cmd.all isDigitB) = true := by
    rw [Bool.and_eq_true, beq_iff_eq, List.all_eq_true]
    exact ⟨h3, hd⟩
  simp [classifyCmd, hcond]

theorem classifyCmd_alpha (cmd R : List Nat)
    (ha : ∀ b ∈ cmd, isAsciiAlphaB b = true)
    (hnd : ¬(cmd.length = 3 ∧ ∀ b ∈ cmd, isDigitB b = true)) :
    classifyCmd cmd R =
      some (IRCCmd cmd, decide (cmd = PRIVMSG_) || decide (cmd = NOTICE_), R) := by
  have hcond : (cmd.length == 3 && cmd.all isDigitB) = false := by
    cases hall : cmd.all isDigitB
    · simp [hall]
    · have hall2 : ∀ b ∈ cmd, isDigitB b = true := by
        rw [List.all_eq_true] at hall
        exact fun b hb => hall b hb
      have h3 : cmd.length ≠ 3 := fun h => hnd ⟨h, hall2⟩
      simp [hall, h3]
  have hal : cmd.all isAsciiAlphaB = true := List.all_eq_true.mpr ha
  simp [classifyCmd, hcond, hal]

theorem classifyCmd_other (cmd R : List Nat)
    (hnd : ¬(cmd.length = 3 ∧ ∀ b ∈ cmd, isDigitB b = true))
    (hna : ¬(∀ b ∈ cmd, isAsciiAlphaB b = true)) :
    classifyCmd cmd R = none := by
  have hcond : (cmd.length == 3 && cmd.all isDigitB) = false := by
    cases hall : cmd.all isDigitB
    · simp [hall]
    · have hall2 : ∀ b ∈ cmd, isDigitB b = true := by
        rw [List.all_eq_true] at hall
        exact fun b hb => hall b hb
      have h3 : cmd.length ≠ 3 := fun h => hnd ⟨h, hall2⟩
      simp [hall, h3]
  have hal : cmd.all isAsciiAlphaB = false := by
    cases hall : cmd.all isAsciiAlphaB
    · rfl
    · exact absurd (fun b hb => List.all_eq_true.mp hall b hb) hna
  simp [classifyCmd, hcond, hal]

/-- C7: the command token (text after the optional prefix up to the next
space or the line end) governs the parse: a space at position 0 makes
parse fail; exactly 3 decimal digits classify as the numeric command of
the token value; an all-ASCII-alphabetic token classifies as that named
command (with the CTCP check flag set exactly for PRIVMSG/NOTICE); any
other token makes the classification, and hence the whole parse, fail.
The two concrete failures from the spec — a leading space, and a double
space before the command after a prefix — both parse to no value. -/
theorem c7_command_classification (v : List Nat) :
    (posElem 32 v = some 0 → parseCmdTok v = none ∧ Line.parse v = .ok none) ∧
    (posElem 32 v ≠ some 0 →
      ((cmdTokOf v).length = 3 → (∀ b ∈ cmdTokOf v, isDigitB b = true) →
        parseCmdTok v = some (IRCCode (decVal (cmdTokOf v)), false, cmdRestOf v)) ∧
      ((∀ b ∈ cmdTokOf v, isAsciiAlphaB b = true) →
        ¬((cmdTokOf v).length = 3 ∧ ∀ b ∈ cmdTokOf v, isDigitB b = true) →
        parseCmdTok v = some (IRCCmd (cmdTokOf v),
          decide (cmdTokOf v = PRIVMSG_) || decide (cmdTokOf v = NOTICE_), cmdRestOf v)) ∧
      (¬((cmdTokOf v).length = 3 ∧ ∀ b ∈ cmdTokOf v, isDigitB b = true) →
        ¬(∀ b ∈ cmdTokOf v, isAsciiAlphaB b = true) →
        parseCmdTok v = none ∧ (v.head? ≠ some 58 → Line.parse v = .ok none))) ∧
    Line.parse [32, 58, 108, 101, 97, 100] = .ok none ∧
    Line.parse [58, 115, 101, 110, 100, 97, 107, 32, 32, 48, 48, 49, 32, 97,
      115, 100, 102, 32, 58, 84, 101, 115, 116] = .ok none := by
  refine ⟨?_, ?_, by decide, by decide⟩
  · intro h
    have hhead : v.head? = some 32 := posElem_head v h
    have h58 : v.head? ≠ some 58 := by rw [hhead]; simp
    refine ⟨parseCmdTok_zero v h, ?_⟩
    rw [parse_eq_parseRest v h58]
    exact parseRest_tok_none none v (parseCmdTok_zero v h)
  · intro hne
    have htok : parseCmdTok v = classifyCmd (cmdTokOf v) (cmdRestOf v) := by
      cases hp : posElem 32 v with
      | none =>
        rw [parseCmdTok_nosp v hp, cmdTokOf, cmdRestOf, hp]
      | some idx =>
        cases idx with
        | zero => exact absurd hp hne
        | succ i =>
          rw [parseCmdTok_sp v i hp, cmdTokOf, cmdRestOf, hp]
    refine ⟨?_, ?_, ?_⟩
    · intro h3 hd
      rw [htok, classifyCmd_digits _ _ h3 hd]
    · intro ha hnd
      rw [htok, classifyCmd_alpha _ _ ha hnd]
    · intro hnd hna
      have hn : parseCmdTok v = none := by
        rw [htok, classifyCmd_other _ _ hnd hna]
      exact ⟨hn, fun h58 => by
        rw [parse_eq_parseRest v h58]
        exact parseRest_tok_none none v hn⟩

/-- Witness for C7 at the numeric token `004` and at the named token
`JOIN x`. -/
theorem c7_witness :
    (posElem 32 [48, 48, 52] ≠ some 0 ∧
     ([48, 48, 52].length = 3 ∧ (∀ b ∈ cmdTokOf [48, 48, 52], isDigitB b = true)) ∧
     parseCmdTok [48, 48, 52] =
       some (IRCCode (decVal (cmdTokOf [48, 48, 52])), false, cmdRestOf [48, 48, 52])) ∧
    (posElem 32 [32, 120] = some 0 ∧ parseCmdTok [32, 120] = none ∧
     Line.parse [32, 120] = .ok none) := by
  constructor
  · refine ⟨by decide, by decide, ?_⟩
    exact ((c7_command_classification [48, 48, 52]).2.1 (by decide)).1 (by decide) (by decide)
  · refine ⟨by decide, ?_⟩
    exact (c7_command_classification [32, 120]).1 (by decide)

/-! Infrastructure for the serialization roundtrip (claim C2). -/

theorem contains_mem (a : List Nat) (t : Nat) : a.contains t = true ↔ t ∈ a := by
  simp [List.contains]

theorem head?_append_left (xs ys : List Nat) (h : xs ≠ []) :
    (xs ++ ys).head? = xs.head? := by
  cases xs
  · exact absurd rfl h
  · rfl

theorem head?_some_mem (xs : List Nat) (b : Nat) (h : xs.head? = some b) : b ∈ xs :=
  List.mem_of_mem_head? (by simp [h])

theorem getLast?_decomp (l : List (List Nat)) (a : List Nat) (h : l.getLast? = some a) :
    l = l.dropLast ++ [a] := by
  have hne : l ≠ [] := by rintro rfl; simp at h
  have h2 := List.dropLast_append_getLast (l := l) hne
  rw [List.getLast?_eq_getLast l hne] at h
  rw [← h2]
  simp [Option.some.inj h]

theorem User.parse_raw (v : List Nat) : (User.parse v).raw = v := rfl

theorem parse_pfx (u W : List Nat) (h : (32 : Nat) ∉ u) :
    Line.parse (58 :: (u ++ 32 :: W)) = parseRest (some (User.parse u)) W := by
  have hpos : posElem 32 (58 :: (u ++ 32 :: W)) = some (u.length + 1) := by
    rw [show posElem 32 (58 :: (u ++ 32 :: W)) =
        (posElem 32 (u ++ 32 :: W)).map (fun i => i + 1) from by simp [posElem]]
    rw [posElem_append_self u W h]
    rfl
  have hpp : parsePfx (58 :: (u ++ 32 :: W)) = some (some (User.parse u), W) := by
    rw [show parsePfx (58 :: (u ++ 32 :: W)) =
        (match posElem 32 (58 :: (u ++ 32 :: W)) with
         | none => none
         | some idx => some (some (User.parse (((58 :: (u ++ 32 :: W)).take idx).drop 1)),
             (58 :: (u ++ 32 :: W)).drop (idx + 1))) from rfl]
    rw [hpos]
    have htk : ((58 :: (u ++ 32 :: W)).take (u.length + 1)).drop 1 = u := by
      rw [List.take_succ_cons, List.drop_succ_cons, List.drop_zero]
      exact List.take_left u (32 :: W)
    have hdp : (58 :: (u ++ 32 :: W)).drop (u.length + 1 + 1) = W := by
      rw [List.drop_succ_cons]
      rw [show u ++ 32 :: W = (u ++ [32]) ++ W from by simp]
      rw [show u.length + 1 = (u ++ [32]).length from by simp]
      exact List.drop_left (u ++ [32]) W
    show some (some (User.parse (((58 :: (u ++ 32 :: W)).take (u.length + 1)).drop 1)),
        (58 :: (u ++ 32 :: W)).drop (u.length + 1 + 1)) = some (some (User.parse u), W)
    rw [htk, hdp]
  rw [Line.parse, hpp]

theorem parse_pfx_step (pf : Option User) (W : List Nat)
    (hok : pfxOK pf = true) (hW : W.head? ≠ some 58) :
    ∃ p2 : Option User,
      Line.parse (pfxPart pf ++ W) = parseRest p2 W ∧
      pfxBeq p2 pf = true := by
  cases pf with
  | none =>
    refine ⟨none, ?_, rfl⟩
    rw [pfxPart, List.nil_append]
    exact parse_eq_parseRest W hW
  | some u =>
    have h32 : (32 : Nat) ∉ u.raw := by
      rw [pfxOK, Option.all_some] at hok
      rw [noSp, Bool.not_eq_true'] at hok
      intro hm
      rw [(contains_mem u.raw 32).mpr hm] at hok
      exact Bool.noConfusion hok
    refine ⟨some (User.parse u.raw), ?_, ?_⟩
    · rw [show pfxPart (some u) ++ W = 58 :: (u.raw ++ 32 :: W) from by simp [pfxPart]]
      exact parse_pfx u.raw W h32
    · rw [pfxBeq, User.parse_raw]
      simp

theorem flatten_shift (ms : List (List Nat)) (X : List Nat) :
    (ms.map (fun a => 32 :: a)).flatten ++ 32 :: X =
      32 :: ((ms.map (fun a => a ++ [32])).flatten ++ X) := by
  induction ms with
  | nil => rfl
  | cons m ms ih =>
    simp only [List.map_cons, List.flatten_cons, List.cons_append, List.append_assoc, ih]
    simp

theorem parseCmdTok_append (C R : List Nat) (hC : C ≠ []) (h32 : (32 : Nat) ∉ C) :
    parseCmdTok (C ++ 32 :: R) = classifyCmd C R := by
  have hp : posElem 32 (C ++ 32 :: R) = some C.length := posElem_append_self C R h32
  cases C with
  | nil => exact absurd rfl hC
  | cons b cs =>
    rw [parseCmdTok_sp _ cs.length (by simpa using hp)]
    congr 1
    · rw [show cs.length + 1 = (b :: cs).length from rfl]
      exact List.take_left (b :: cs) (32 :: R)
    · rw [show (b :: cs) ++ 32 :: R = ((b :: cs) ++ [32]) ++ R from by simp]
      rw [show cs.length + 2 = ((b :: cs) ++ [32]).length from by simp]
      exact List.drop_left ((b :: cs) ++ [32]) R

theorem parseCmdTok_whole (C : List Nat) (h32 : (32 : Nat) ∉ C) :
    parseCmdTok C = classifyCmd C [] :=
  parseCmdTok_nosp C (posElem_of_not_mem h32)

theorem parseRest_eval (p : Option User) (v R : List Nat) (cmd : Command) (chk : Bool)
    (htok : parseCmdTok v = some (cmd, chk, R)) :
    parseRest p v =
      (if chk && (match (parseArgs R).getLast? with
                  | none => false
                  | some a => a.head? == some 1) then
         match ctcpStep cmd (parseArgs R) with
         | .error _ => .error ()
         | .ok (c2, a2) => .ok (some (Line.mk p c2 a2))
       else .ok (some (Line.mk p cmd (parseArgs R)))) := by
  rw [parseRest, htok]

theorem getLast?_none_nil (l : List (List Nat)) (h : l.getLast? = none) : l = [] := by
  cases l with
  | nil => rfl
  | cons a r =>
    exfalso
    have hne : a :: r ≠ [] := by simp
    rw [List.getLast?_eq_getLast _ hne] at h
    exact Option.noConfusion h

theorem parseRest_nonctcp_ser (p : Option User) (C : List Nat) (cmd : Command) (chk : Bool)
    (args : List (List Nat))
    (hC : C ≠ []) (h32 : (32 : Nat) ∉ C)
    (hcls : ∀ R, classifyCmd C R = some (cmd, chk, R))
    (hms : ∀ m ∈ args.dropLast, (32 : Nat) ∉ m ∧ m.head? ≠ some 58)
    (hla : ∀ la, args.getLast? = some la → lastOK la = true)
    (hguard : chk = true → ∀ la, args.getLast? = some la → la.head? ≠ some 1) :
    parseRest p (C ++ (match args.getLast? with
      | none => []
      | some last => (args.dropLast.map (fun a => 32 :: a)).flatten ++ [32] ++
          (if last.contains 32 then [58] else []) ++ last)) =
      .ok (some (Line.mk p cmd args)) := by
  cases hlast : args.getLast? with
  | none =>
    have hanil : args = [] := getLast?_none_nil args hlast
    rw [List.append_nil]
    rw [parseRest_eval p _ [] cmd chk (by
      rw [parseCmdTok_whole C h32]
      exact hcls [])]
    rw [hanil, parseArgs_nil]
    simp
  | some la =>
    have hadec : args = args.dropLast ++ [la] := getLast?_decomp args la hlast
    have hshape : (args.dropLast.map (fun a => 32 :: a)).flatten ++ [32] ++
        (if la.contains 32 then [58] else []) ++ la =
        32 :: ((args.dropLast.map (fun a => a ++ [32])).flatten ++
          ((if la.contains 32 then [58] else []) ++ la)) := by
      rw [List.append_assoc, List.append_assoc]
      rw [show ([32] : List Nat) ++ ((if la.contains 32 then [58] else []) ++ la) =
          32 :: ((if la.contains 32 then [58] else []) ++ la) from rfl]
      exact flatten_shift _ _
    rw [show (match some la with
      | none => ([] : List Nat)
      | some last => ((args.dropLast.map (fun a => 32 :: a)).flatten ++ [32] ++
          (if last.contains 32 then [58] else []) ++ last)) =
      ((args.dropLast.map (fun a => 32 :: a)).flatten ++ [32] ++
          (if la.contains 32 then [58] else []) ++ la) from rfl]
    rw [hshape]
    rw [parseRest_eval p _ _ cmd chk (by
      rw [parseCmdTok_append C _ hC h32]
      exact hcls _)]
    have hargsparse : parseArgs ((args.dropLast.map (fun a => a ++ [32])).flatten ++
        ((if la.contains 32 then [58] else []) ++ la)) = args.dropLast ++ [la] := by
      rw [parseArgs_join _ _ hms]
      congr 1
      by_cases hc32 : la.contains 32 = true
      · rw [if_pos hc32, List.singleton_append]
        exact parseArgs_colon la
      · have hc32f : la.contains 32 = false := by
          cases h2 : la.contains 32
          · rfl
          · exact absurd h2 hc32
        rw [if_neg hc32, List.nil_append]
        have hlaOK := hla la hlast
        rw [lastOK, hc32f] at hlaOK
        simp only [Bool.false_or, Bool.and_eq_true, Bool.not_eq_true',
          beq_eq_false_iff_ne, ne_eq] at hlaOK
        obtain ⟨⟨hne, hh58⟩, hnosp⟩ := hlaOK
        have hnot32 : (32 : Nat) ∉ la := by
          intro hm
          rw [noSp, (contains_mem la 32).mpr hm] at hnosp
          exact Bool.noConfusion hnosp
        cases la with
        | nil => exact absurd rfl hne
        | cons b r =>
          have hb : b ≠ 58 := by
            intro hb
            exact hh58 (by rw [hb]; rfl)
          exact parseArgs_last hb (posElem_of_not_mem hnot32)
    rw [hargsparse, ← hadec]
    have hguardF : (chk && (match args.getLast? with
        | none => false
        | some a => a.head? == some 1)) = false := by
      cases hchk : chk
      · rfl
      · rw [hlast]
        have h1 := hguard hchk la hlast
        simp [h1]
    rw [hguardF]
    simp

theorem ctcpStep_pair (C dst t text verb : List Nat) (rest2 : List (List Nat))
    (hcond : (decide (t.length > 1) && (t.getLast? == some 1)) = true)
    (htext : (t.drop 1).dropLast = text)
    (hsplit : (match posElem 32 text with
      | some idx => (text.take idx, [text.drop (idx + 1)])
      | none => (text, ([] : List (List Nat)))) = (verb, rest2)) :
    ctcpStep (IRCCmd C) [dst, t] =
      (if C = PRIVMSG_ then
         (if verb = ACTION_ then .ok (IRCAction dst, rest2) else .ok (IRCCTCP verb dst, rest2))
       else if C = NOTICE_ then .ok (IRCCTCPReply verb dst, rest2)
       else .error ()) := by
  have h0 : ctcpStep (IRCCmd C) [dst, t] =
      (let text2 := if (decide (t.length > 1) && (t.getLast? == some 1)) = true
                    then (t.drop 1).dropLast else t.drop 1
       let pr := match posElem 32 text2 with
         | some idx => (text2.take idx, [text2.drop (idx + 1)])
         | none => (text2, ([] : List (List Nat)))
       if C = PRIVMSG_ then
         if pr.1 = ACTION_ then Except.ok (IRCAction dst, pr.2)
         else Except.ok (IRCCTCP pr.1 dst, pr.2)
       else if C = NOTICE_ then Except.ok (IRCCTCPReply pr.1 dst, pr.2)
       else Except.error ()) := rfl
  rw [h0]
  simp only [hcond, if_true, htext, hsplit]

theorem parseRest_ctcp_ser (p : Option User) (C dst verb : List Nat)
    (args : List (List Nat))
    (hdst32 : (32 : Nat) ∉ dst) (hdst58 : dst.head? ≠ some 58)
    (hverb : (32 : Nat) ∉ verb)
    (hargs : args = [] ∨ ∃ a, args = [a])
    (hC : C = PRIVMSG_ ∨ C = NOTICE_) :
    parseRest p (C ++ 32 :: (dst ++ 32 :: 58 :: 1 ::
        (verb ++ ((args.map (fun a => 32 :: a)).flatten ++ [1])))) =
      .ok (some (Line.mk p
        (if C = PRIVMSG_ then
           (if verb = ACTION_ then IRCAction dst else IRCCTCP verb dst)
         else IRCCTCPReply verb dst)
        args)) := by
  have hCne : C ≠ [] := by rcases hC with h | h <;> subst h <;> decide
  have hC32 : (32 : Nat) ∉ C := by rcases hC with h | h <;> subst h <;> decide
  have hcls : ∀ R, classifyCmd C R = some (IRCCmd C, true, R) := by
    intro R
    rcases hC with h | h <;> subst h <;>
      rw [classifyCmd_alpha _ R (by decide) (by decide)] <;> simp
  rw [parseRest_eval p _ _ (IRCCmd C) true (by
    rw [parseCmdTok_append C _ hCne hC32]
    exact hcls _)]
  rw [parseArgs_tok _ hdst32 hdst58, parseArgs_colon]
  rw [if_pos (show (true && (match ([dst, 1 :: (verb ++
      ((args.map (fun a => 32 :: a)).flatten ++ [1]))] : List (List Nat)).getLast? with
      | none => false
      | some a => a.head? == some 1)) = true from rfl)]
  have hcond : (decide ((1 :: (verb ++ ((args.map (fun a => 32 :: a)).flatten ++ [1]))).length > 1) &&
      ((1 :: (verb ++ ((args.map (fun a => 32 :: a)).flatten ++ [1]))).getLast? == some 1)) = true := by
    have hg : (1 :: (verb ++ ((args.map (fun a => 32 :: a)).flatten ++ [1]))).getLast? =
        some 1 := by
      rw [show (1 :: (verb ++ ((args.map (fun a => 32 :: a)).flatten ++ [1]))) =
          (1 :: (verb ++ (args.map (fun a => 32 :: a)).flatten)) ++ [1] from by simp]
      exact List.getLast?_concat _
    have hl : (1 :: (verb ++ ((args.map (fun a => 32 :: a)).flatten ++ [1]))).length > 1 := by
      simp
    simp [hg, hl]
  have htext : ((1 :: (verb ++ ((args.map (fun a => 32 :: a)).flatten ++ [1]))).drop 1).dropLast =
      verb ++ (args.map (fun a => 32 :: a)).flatten := by
    rw [List.drop_succ_cons, List.drop_zero]
    rw [show verb ++ ((args.map (fun a => 32 :: a)).flatten ++ [1]) =
        (verb ++ (args.map (fun a => 32 :: a)).flatten) ++ [1] from by simp]
    exact List.dropLast_concat
  have hsplit : (match posElem 32 (verb ++ (args.map (fun a => 32 :: a)).flatten) with
      | some idx => ((verb ++ (args.map (fun a => 32 :: a)).flatten).take idx,
          [(verb ++ (args.map (fun a => 32 :: a)).flatten).drop (idx + 1)])
      | none => ((verb ++ (args.map (fun a => 32 :: a)).flatten), ([] : List (List Nat)))) =
      (verb, args) := by
    rcases hargs with h | ⟨a, h⟩ <;> subst h
    · simp only [List.map_nil, List.flatten_nil, List.append_nil]
      rw [posElem_of_not_mem hverb]
    · simp only [List.map_cons, List.map_nil, List.flatten_cons, List.flatten_nil,
        List.append_nil]
      rw [posElem_append_self verb a hverb]
      show ((verb ++ 32 :: a).take verb.length, [(verb ++ 32 :: a).drop (verb.length + 1)]) =
        (verb, [a])
      rw [List.take_left]
      rw [show verb ++ 32 :: a = (verb ++ [32]) ++ a from by simp]
      rw [show verb.length + 1 = (verb ++ [32]).length from by simp]
      rw [List.drop_left]
  rw [ctcpStep_pair C dst _ (verb ++ (args.map (fun a => 32 :: a)).flatten) verb args
    hcond htext hsplit]
  rcases hC with h | h <;> subst h
  · by_cases hA : verb = ACTION_ <;> simp [hA]
  · have hne : ¬(NOTICE_ = PRIVMSG_) := by decide
    simp [hne]

theorem rtCheck_of_parse (l res : Line)
    (hp : Line.parse l.to_raw = .ok (some res))
    (hpfx : pfxBeq res.pfx l.pfx = true) (hc : res.command = l.command)
    (ha : res.args = l.args) : rtCheck l = true := by
  rw [rtCheck, hp]
  simp [hpfx, hc, ha]

theorem midOK_facts (a : List Nat) (h : midOK a = true) :
    (32 : Nat) ∉ a ∧ a.head? ≠ some 58 := by
  rw [midOK, Bool.and_eq_true] at h
  obtain ⟨h1, h2⟩ := h
  constructor
  · intro hm
    rw [noSp, (contains_mem a 32).mpr hm] at h1
    exact Bool.noConfusion h1
  · intro he
    rw [he] at h2
    simp at h2

theorem optAll_facts (o : Option (List Nat)) (p : List Nat → Bool) (h : o.all p = true) :
    ∀ a, o = some a → p a = true := by
  intro a ha
  rw [ha, Option.all_some] at h
  exact h

theorem alpha_ne32 (c : List Nat) (h : ∀ b ∈ c, isAsciiAlphaB b = true) :
    (32 : Nat) ∉ c :=
  fun hm => absurd (h 32 hm) (by decide)

theorem alpha_head58 (c : List Nat) (h : ∀ b ∈ c, isAsciiAlphaB b = true) :
    c.head? ≠ some 58 :=
  fun he => absurd (h 58 (head?_some_mem c 58 he)) (by decide)

theorem alpha_not_digits (c : List Nat) (hne : c ≠ [])
    (h : ∀ b ∈ c, isAsciiAlphaB b = true) :
    ¬(c.length = 3 ∧ ∀ b ∈ c, isDigitB b = true) := by
  rintro ⟨_, hd⟩
  cases c with
  | nil => exact hne rfl
  | cons b r =>
    have h1 := h b (List.mem_cons_self b r)
    have h2 := hd b (List.mem_cons_self b r)
    simp [isAsciiAlphaB, isDigitB] at h1 h2
    omega

theorem noSp_not_mem (a : List Nat) (h : noSp a = true) : (32 : Nat) ∉ a := by
  intro hm
  rw [noSp, (contains_mem a 32).mpr hm] at h
  exact Bool.noConfusion h

theorem digits_head58 (n : Nat) : (zeroPad3 n).head? ≠ some 58 :=
  fun he => absurd (zeroPad3_all_digits n 58 (head?_some_mem _ 58 he)) (by decide)

theorem args_le1_cases (args : List (List Nat)) (h : args.length ≤ 1) :
    args = [] ∨ ∃ a, args = [a] := by
  cases args with
  | nil => exact Or.inl rfl
  | cons a r =>
    cases r with
    | nil => exact Or.inr ⟨a, rfl⟩
    | cons b s => simp at h

theorem argsOK_facts (args : List (List Nat))
    (h : (args.dropLast.all midOK && (args.getLast?).all lastOK) = true) :
    (∀ m ∈ args.dropLast, (32 : Nat) ∉ m ∧ m.head? ≠ some 58) ∧
    (∀ la, args.getLast? = some la → lastOK la = true) := by
  rw [Bool.and_eq_true] at h
  constructor
  · intro m hm
    exact midOK_facts m (List.all_eq_true.mp h.1 m hm)
  · exact optAll_facts _ _ h.2

/-- C2 (amended): for a `Line` whose prefix raw bytes contain no space,
whose command is well-formed (a nonempty all-alphabetic name that does
not trip the CTCP rewrite when it is PRIVMSG/NOTICE, or a numeric code
below 1000, or a CTCP variant with a space-free non-colon-started
destination, a space-free verb — not ACTION for the CTCP variant — and
at most one argument), whose non-final arguments are space-free and not
colon-started, and whose final argument (non-CTCP) either contains a
space or is nonempty, space-free and not colon-started, parsing the
serialization returns exactly the same line, with prefixes compared as
raw byte strings like the Rust `Eq`. -/
theorem c2_roundtrip_amended (l : Line) (h : rtHyp l = true) : rtCheck l = true := by
  obtain ⟨hpfx, hcmd, hargs, hcrlf⟩ :
      pfxOK l.pfx = true ∧ cmdOK l = true ∧ argsOK l = true ∧
        l.args.all noCRLF = true := by
    rw [rtHyp] at h
    simp only [Bool.and_eq_true] at h
    exact ⟨h.1.1.1, h.1.1.2, h.1.2, h.2⟩
  obtain ⟨pf, cmd, args⟩ := l
  cases cmd with
  | IRCCmd c =>
    have hcmd2 : ((!(c == []) && c.all isAsciiAlphaB) &&
        ((!(c == PRIVMSG_) && !(c == NOTICE_)) ||
          (args.getLast?).all (fun a => !(a.head? == some 1)))) = true := hcmd
    rw [Bool.and_eq_true, Bool.and_eq_true] at hcmd2
    obtain ⟨⟨hcne0, hcalpha0⟩, hctcp2⟩ := hcmd2
    have hcne : c ≠ [] := by simpa using hcne0
    have halpha : ∀ b ∈ c, isAsciiAlphaB b = true := List.all_eq_true.mp hcalpha0
    have haf := argsOK_facts args hargs
    have hcls : ∀ R, classifyCmd c R =
        some (IRCCmd c, decide (c = PRIVMSG_) || decide (c = NOTICE_), R) :=
      fun R => classifyCmd_alpha c R halpha (alpha_not_digits c hcne halpha)
    have hguard : (decide (c = PRIVMSG_) || decide (c = NOTICE_)) = true →
        ∀ la, args.getLast? = some la → la.head? ≠ some 1 := by
      intro hchk la hlast hhead
      rw [Bool.or_eq_true] at hctcp2
      rcases hctcp2 with hno | hall
      · rw [Bool.and_eq_true] at hno
        rw [Bool.or_eq_true] at hchk
        rcases hchk with h1 | h1
        · have h2 := hno.1
          rw [of_decide_eq_true h1] at h2
          simp at h2
        · have h2 := hno.2
          rw [of_decide_eq_true h1] at h2
          simp at h2
      · have h2 := optAll_facts _ _ hall la hlast
        rw [hhead] at h2
        simp at h2
    have hshape : Line.to_raw ⟨pf, IRCCmd c, args⟩ =
        pfxPart pf ++
        (c ++ (match args.getLast? with
          | none => []
          | some last => (args.dropLast.map (fun a => 32 :: a)).flatten ++ [32] ++
              (if last.contains 32 then [58] else []) ++ last)) := by
      cases pf <;> simp [Line.to_raw, pfxPart, Command.is_ctcp, List.append_assoc]
    obtain ⟨p2, hparse, hbeq⟩ := parse_pfx_step pf
      (c ++ (match args.getLast? with
        | none => []
        | some last => (args.dropLast.map (fun a => 32 :: a)).flatten ++ [32] ++
            (if last.contains 32 then [58] else []) ++ last)) hpfx (by
      rw [head?_append_left c _ hcne]
      exact alpha_head58 c halpha)
    refine rtCheck_of_parse _ ⟨p2, IRCCmd c, args⟩ ?_ hbeq rfl rfl
    rw [hshape, hparse]
    exact parseRest_nonctcp_ser p2 c (IRCCmd c) _ args hcne (alpha_ne32 c halpha)
      hcls haf.1 haf.2 hguard
  | IRCCode n =>
    have hn : n < 1000 := of_decide_eq_true hcmd
    have haf := argsOK_facts args hargs
    have hcls : ∀ R, classifyCmd (zeroPad3 n) R = some (IRCCode n, false, R) := by
      intro R
      rw [classifyCmd_digits _ R (zeroPad3_length hn) (zeroPad3_all_digits n),
        decVal_zeroPad3]
    have hshape : Line.to_raw ⟨pf, IRCCode n, args⟩ =
        pfxPart pf ++
        (zeroPad3 n ++ (match args.getLast? with
          | none => []
          | some last => (args.dropLast.map (fun a => 32 :: a)).flatten ++ [32] ++
              (if last.contains 32 then [58] else []) ++ last)) := by
      cases pf <;> simp [Line.to_raw, pfxPart, Command.is_ctcp, List.append_assoc]
    obtain ⟨p2, hparse, hbeq⟩ := parse_pfx_step pf
      (zeroPad3 n ++ (match args.getLast? with
        | none => []
        | some last => (args.dropLast.map (fun a => 32 :: a)).flatten ++ [32] ++
            (if last.contains 32 then [58] else []) ++ last)) hpfx (by
      rw [head?_append_left _ _ (zeroPad3_ne_nil n)]
      exact digits_head58 n)
    refine rtCheck_of_parse _ ⟨p2, IRCCode n, args⟩ ?_ hbeq rfl rfl
    rw [hshape, hparse]
    exact parseRest_nonctcp_ser p2 (zeroPad3 n) (IRCCode n) false args
      (zeroPad3_ne_nil n) (zeroPad3_not_mem_32 n) hcls haf.1 haf.2
      (fun hff => absurd hff (by simp))
  | IRCAction dst =>
    have hmid := midOK_facts dst hcmd
    have hlen : args.length ≤ 1 := of_decide_eq_true hargs
    have hac := args_le1_cases args hlen
    have hshape : Line.to_raw ⟨pf, IRCAction dst, args⟩ =
        pfxPart pf ++
        (PRIVMSG_ ++ 32 :: (dst ++ 32 :: 58 :: 1 ::
          (ACTION_ ++ ((args.map (fun a => 32 :: a)).flatten ++ [1])))) := by
      cases pf <;> simp [Line.to_raw, pfxPart, Command.is_ctcp, List.append_assoc]
    obtain ⟨p2, hparse, hbeq⟩ := parse_pfx_step pf
      (PRIVMSG_ ++ 32 :: (dst ++ 32 :: 58 :: 1 ::
        (ACTION_ ++ ((args.map (fun a => 32 :: a)).flatten ++ [1])))) hpfx (by
      rw [head?_append_left PRIVMSG_ _ (by decide)]
      decide)
    have hser := parseRest_ctcp_ser p2 PRIVMSG_ dst ACTION_ args hmid.1 hmid.2
      (by decide) hac (Or.inl rfl)
    rw [if_pos rfl, if_pos rfl] at hser
    refine rtCheck_of_parse _ ⟨p2, IRCAction dst, args⟩ ?_ hbeq rfl rfl
    rw [hshape, hparse]
    exact hser
  | IRCCTCP verb dst =>
    have hcmd2 : ((midOK dst && noSp verb) && !(verb == ACTION_)) = true := hcmd
    rw [Bool.and_eq_true, Bool.and_eq_true] at hcmd2
    obtain ⟨⟨hmid0, hverb0⟩, hact0⟩ := hcmd2
    have hmid := midOK_facts dst hmid0
    have hverb := noSp_not_mem verb hverb0
    have hact : verb ≠ ACTION_ := by simpa using hact0
    have hlen : args.length ≤ 1 := of_decide_eq_true hargs
    have hac := args_le1_cases args hlen
    have hshape : Line.to_raw ⟨pf, IRCCTCP verb dst, args⟩ =
        pfxPart pf ++
        (PRIVMSG_ ++ 32 :: (dst ++ 32 :: 58 :: 1 ::
          (verb ++ ((args.map (fun a => 32 :: a)).flatten ++ [1])))) := by
      cases pf <;> simp [Line.to_raw, pfxPart, Command.is_ctcp, List.append_assoc]
    obtain ⟨p2, hparse, hbeq⟩ := parse_pfx_step pf
      (PRIVMSG_ ++ 32 :: (dst ++ 32 :: 58 :: 1 ::
        (verb ++ ((args.map (fun a => 32 :: a)).flatten ++ [1])))) hpfx (by
      rw [head?_append_left PRIVMSG_ _ (by decide)]
      decide)
    have hser := parseRest_ctcp_ser p2 PRIVMSG_ dst verb args hmid.1 hmid.2
      hverb hac (Or.inl rfl)
    rw [if_pos rfl, if_neg hact] at hser
    refine rtCheck_of_parse _ ⟨p2, IRCCTCP verb dst, args⟩ ?_ hbeq rfl rfl
    rw [hshape, hparse]
    exact hser
  | IRCCTCPReply verb dst =>
    have hcmd2 : (midOK dst && noSp verb) = true := hcmd
    rw [Bool.and_eq_true] at hcmd2
    obtain ⟨hmid0, hverb0⟩ := hcmd2
    have hmid := midOK_facts dst hmid0
    have hverb := noSp_not_mem verb hverb0
    have hlen : args.length ≤ 1 := of_decide_eq_true hargs
    have hac := args_le1_cases args hlen
    have hshape : Line.to_raw ⟨pf, IRCCTCPReply verb dst, args⟩ =
        pfxPart pf ++
        (NOTICE_ ++ 32 :: (dst ++ 32 :: 58 :: 1 ::
          (verb ++ ((args.map (fun a => 32 :: a)).flatten ++ [1])))) := by
      cases pf <;> simp [Line.to_raw, pfxPart, Command.is_ctcp, List.append_assoc]
    obtain ⟨p2, hparse, hbeq⟩ := parse_pfx_step pf
      (NOTICE_ ++ 32 :: (dst ++ 32 :: 58 :: 1 ::
        (verb ++ ((args.map (fun a => 32 :: a)).flatten ++ [1])))) hpfx (by
      rw [head?_append_left NOTICE_ _ (by decide)]
      decide)
    have hser := parseRest_ctcp_ser p2 NOTICE_ dst verb args hmid.1 hmid.2
      hverb hac (Or.inr rfl)
    rw [if_neg (show ¬(NOTICE_ = PRIVMSG_) from by decide)] at hser
    refine rtCheck_of_parse _ ⟨p2, IRCCTCPReply verb dst, args⟩ ?_ hbeq rfl rfl
    rw [hshape, hparse]
    exact hser

/-- C2 counterexample: nine concrete lines, each with CR/LF-free and
space-free arguments (so the claim's hypotheses hold), whose
serialization does not parse back to the same line: an empty last
argument is dropped; a colon-started last argument loses its colon; two
CTCP arguments merge into one; an all-digit command name reparses as a
numeric code; a PRIVMSG whose last argument starts with byte 1 is
rewritten to a CTCP command; a prefix containing a space splits early; a
CTCP command with verb ACTION reparses as an action; a numeric code of
1000 renders as 4 digits and fails to parse; a CTCP verb containing a
space splits. -/
theorem c2_counterexample :
    ((Line.mk none (IRCCmd PING_) [[]]).args.all noCRLF = true ∧
     (Line.mk none (IRCCmd PING_) [[]]).args.all noSp = true ∧
     rtCheck (Line.mk none (IRCCmd PING_) [[]]) = false) ∧
    ((Line.mk none (IRCCmd PING_) [[58, 97]]).args.all noCRLF = true ∧
     (Line.mk none (IRCCmd PING_) [[58, 97]]).args.all noSp = true ∧
     rtCheck (Line.mk none (IRCCmd PING_) [[58, 97]]) = false) ∧
    ((Line.mk none (IRCAction [35, 99]) [[97], [98]]).args.all noCRLF = true ∧
     (Line.mk none (IRCAction [35, 99]) [[97], [98]]).args.all noSp = true ∧
     rtCheck (Line.mk none (IRCAction [35, 99]) [[97], [98]]) = false) ∧
    (rtCheck (Line.mk none (IRCCmd [49, 50, 51]) []) = false) ∧
    ((Line.mk none (IRCCmd PRIVMSG_) [[35, 99], [1, 86]]).args.all noCRLF = true ∧
     (Line.mk none (IRCCmd PRIVMSG_) [[35, 99], [1, 86]]).args.all noSp = true ∧
     rtCheck (Line.mk none (IRCCmd PRIVMSG_) [[35, 99], [1, 86]]) = false) ∧
    (rtCheck (Line.mk (some (User.parse [97, 32, 98])) (IRCCmd PING_) []) = false) ∧
    (rtCheck (Line.mk none (IRCCTCP ACTION_ [35, 99]) []) = false) ∧
    (rtCheck (Line.mk none (IRCCode 1000) []) = false) ∧
    (rtCheck (Line.mk none (IRCCTCP [65, 32, 66] [35, 99]) []) = false) := by
  decide

/-- Witness for C2: the line `:n!u@h PRIVMSG #c :hi t` roundtrips. -/
theorem c2_witness :
    rtHyp (Line.mk (some (User.parse [110, 33, 117, 64, 104])) (IRCCmd PRIVMSG_)
      [[35, 99], [104, 105, 32, 116]]) = true ∧
    rtCheck (Line.mk (some (User.parse [110, 33, 117, 64, 104])) (IRCCmd PRIVMSG_)
      [[35, 99], [104, 105, 32, 116]]) = true :=
  ⟨by decide,
   c2_roundtrip_amended (Line.mk (some (User.parse [110, 33, 117, 64, 104]))
     (IRCCmd PRIVMSG_) [[35, 99], [104, 105, 32, 116]]) (by decide)⟩
